import Mathlib

/-!
Verification development for the SimpleBattles battle-resolution engine
(src/Battle.py).

The Python source is shallowly embedded.  Python floats are modelled by an
arbitrary linear ordered field `K`: instantiating `K := ℚ` makes every
operational definition executable (witnesses evaluate by `decide`), while
`K := ℝ` together with `Real.log` and `Real.rpow` realises the
transcendental formulas (`math.log` and `**`).  Mutation of Python objects
is modelled by state passing; Python object identity (units are `eq=False`
attrs classes, compared and hashed by identity) is modelled by a `uid`
field.  Python dicts are modelled by association lists with Python's
insertion-order semantics (update in place, insert at the end, delete the
matching entry).

Two pieces of this repository are not under src/ and are modelled from the
spec: the `Geography.Landscape` collaborator (spec section 6: four
read-only query operations keyed by file and position) and the
`Config.DELTA_T` tick-length constant (spec: "tickLength"), which is taken
as a parameter `dt` throughout.  The transcendental functions `math.log`
and `x ** y` are packaged in a `Transcend` record so that one generic
definition body serves both the real instantiation (the genuine formulas)
and executable rational instantiations.
-/

namespace SB

/-- The four possible battle outcomes, src/Battle.py `BattleOutcome`. -/
inductive BattleOutcome where
  | BOTH_LOST
  | WIN_1
  | WIN_2
  | STALEMATE
deriving DecidableEq

/-- Unit stances, src/Battle.py `Stance` (an `IntEnum`; lower value means
more aggressive movement). -/
inductive Stance where
  | AGGR
  | NEUT
  | DEFN
deriving DecidableEq

/-- The integer value of a stance (`IntEnum` value in the source). -/
def Stance.value : Stance → ℕ
  | .AGGR => 0
  | .NEUT => 1
  | .DEFN => 2

/-- Python `min` on two stances, comparing `IntEnum` values. -/
def Stance.minStance (a b : Stance) : Stance :=
  if a.value ≤ b.value then a else b

variable {K : Type} [LinearOrderedField K] [FloorRing K] [DecidableEq K]

/- Module-level constants of src/Battle.py (lines 14-39).  `POS_DEC_DIG = 3`
is baked into `round3`; `DELTA_T` comes from the missing Config module and
is passed as a parameter `dt`. -/

/-- `Unit.EPS = 0.5 * 0.1 ** POS_DEC_DIG`, used to prevent floating point
errors. -/
def EPS : K := 1 / 2000

def RESERVE_DIST_BEHIND : K := 2

def MIN_DEPLOY_DIST : K := 1

def SIDE_RANGE_PENALTY : K := 1 / 2

def BASE_SPEED : K := 20

def CHARGE_DISTANCE : K := 2

def HALT_POWER_GRADIENT : K := 20

def POWER_SCALE : K := 50

def LOW_MORALE_POWER : K := 200

def TERRAIN_POWER : K := 300

def HEIGHT_DIF_POWER : K := 20

def RESERVES_POWER : K := 1 / 6

def RESERVES_SOFT_CAP : K := 500

def PURSUE_MORALE : K := -(1 / 4)

def FILE_EMPTY : K := 0

def FILE_SUPPORTED : K := 1 / 10

def FILE_VULNERABLE : K := -(1 / 5)

/-- Python `round(x, 3)` (`POS_DEC_DIG = 3`).  Exact-rational model of the
float rounding; Lean's `round` rounds half away from the floor whereas
Python uses round-half-even on the underlying binary float, but no theorem
below depends on the direction of exact half-way ties. -/
def round3 (x : K) : K := ((round (1000 * x) : ℤ) : K) / 1000

/-- Modelled from the spec: the terrain collaborator `Geography.Landscape`
is not under src/.  Spec section 6 specifies four read-only query
operations keyed by (file, position); `get_roughness` stands for
`get_terrain(file, position).roughness`. -/
structure Landscape (K : Type) where
  get_height : ℤ → K → K
  get_roughness : ℤ → K → K
  get_mean_scaled_roughness : ℤ → K → K → K
  get_mean_cover : ℤ → K → K

/-- Modelled from the spec: the transcendental float operations used by the
source, `math.log` (natural logarithm, in `Army.reserve_power`) and
`x ** y` (real exponentiation, in `Battle.compute_fight_balance` and
`Battle.get_unit_power_from_morale`).  The genuine instantiation is
`realTranscend` below (`Real.log` / `Real.rpow`); rational instantiations
make the operational layer executable for concrete witnesses. -/
structure Transcend (K : Type) where
  log : K → K
  rpow : K → K → K

/-- src/Battle.py `UnitType`: immutable combat template. -/
structure UnitType (K : Type) where
  name : String
  power : K
  rigidity : K
  speed : K
  att_range : K
deriving DecidableEq

/-- `UnitType.smoothness_desire`. -/
def UnitType.smoothness_desire (t : UnitType K) : K :=
  t.rigidity + (t.speed - 1)

/-- src/Battle.py `Unit`: a mutable combat instance.  `uid` models Python
object identity (`@define(eq=False)`: units are compared and hashed by
identity). -/
structure Unit (K : Type) where
  uid : ℕ
  unit_type : UnitType K
  stance : Stance
  file : ℤ
  init_pos : K
  position : K
  morale : K
  halted : Bool
  pursuing : Bool
deriving DecidableEq

/-- Constructing a fresh `Unit` (the attrs `init=False` field defaults:
`init_pos = 0`, `position = 0`, `morale = 1`, `halted = False`,
`pursuing = False`). -/
def mkUnit (uid : ℕ) (unit_type : UnitType K) (stance : Stance)
    (file : ℤ) : Unit K :=
  { uid := uid, unit_type := unit_type, stance := stance, file := file,
    init_pos := 0, position := 0, morale := 1, halted := false, pursuing := false }

namespace Unit

def power (u : Unit K) : K := u.unit_type.power

def speed (u : Unit K) : K := u.unit_type.speed

def rigidity (u : Unit K) : K := u.unit_type.rigidity

def att_range (u : Unit K) : K := u.unit_type.att_range

def smoothness_desire (u : Unit K) : K := u.unit_type.smoothness_desire

def moving_to_pos (u : Unit K) : Bool := decide (u.init_pos < 0)

def moving_to_neg (u : Unit K) : Bool := decide (0 < u.init_pos)

def at_home (u : Unit K) : Bool := decide (u.position = u.init_pos)

def at_end (u : Unit K) : Bool := decide (u.position = -u.init_pos)

def get_dist_to (u : Unit K) (position : K) : K := |u.position - position|

def is_in_front (u : Unit K) (other : Unit K) : Bool := decide (u.file = other.file)

def get_eff_range_against (u : Unit K) (other : Unit K) : K :=
  if u.is_in_front other then u.att_range else u.att_range - SIDE_RANGE_PENALTY

/-- `Unit.is_in_range_of`.  The source's `None` file check is vacuous in
the model: `file` is always an integer (it is never unset on model units,
matching the source where every constructed unit carries a file). -/
def is_in_range_of (u : Unit K) (other : Unit K) : Bool :=
  decide (u.get_dist_to other.position ≤ u.get_eff_range_against other + EPS)

def get_position_to_attack_target (u : Unit K) (other : Unit K) : K :=
  let eff_range := u.get_eff_range_against other - EPS
  if u.position < other.position - eff_range then other.position - eff_range
  else if other.position + eff_range < u.position then other.position + eff_range
  else u.position

/-- `Unit.get_signed_distance_to_unit`: positive means the other unit is
ahead, according to this unit's direction. -/
def get_signed_distance_to_unit (u : Unit K) (other : Unit K) : K :=
  let dist := other.position - u.position
  if u.moving_to_pos then dist else -dist

def get_height (u : Unit K) (landscape : Landscape K) : K :=
  landscape.get_height u.file u.position

def get_eff_speed (u : Unit K) (landscape : Landscape K) : K :=
  u.speed * (1 - landscape.get_roughness u.file u.position)

def get_power_from_terrain (u : Unit K) (landscape : Landscape K) : K :=
  landscape.get_mean_scaled_roughness u.file u.position u.smoothness_desire * TERRAIN_POWER
    + u.get_height landscape * HEIGHT_DIF_POWER

def is_charge_range_of (u : Unit K) (target_pos : K) : Bool :=
  decide (u.get_dist_to target_pos < u.speed * CHARGE_DISTANCE)

/-- `Unit.cap_position`: clamp to the home-to-front interval, then round to
3 decimal places. -/
def cap_position (u : Unit K) : Unit K :=
  let p := max (-|u.init_pos|) (min u.position |u.init_pos|)
  { u with position := round3 p }

def set_up (u : Unit K) (init_pos : K) : Unit K :=
  let u1 : Unit K := { u with init_pos := init_pos }
  { u1 with position := init_pos + EPS * (if u1.moving_to_pos then 1 else -1) }

def move_by (u : Unit K) (dist : K) : Unit K :=
  cap_position { u with position := u.position + dist }

def move_to (u : Unit K) (position : K) : Unit K :=
  cap_position { u with position := position }

/-- `Unit.confirm_move`: undoes movement if it weakens the unit too much,
otherwise allows it. -/
def confirm_move (u : Unit K) (gradient old_pos old_lag new_lag : K) : Unit K :=
  if u.get_dist_to u.init_pos < MIN_DEPLOY_DIST then
    { u with halted := false }
  else if old_lag < 1 ∧ 1 ≤ new_lag then
    { u with position := old_pos, halted := true }
  else
    let new_lag2 := min new_lag (1 - EPS)
    let gradient2 := gradient * (if old_lag < new_lag2 then 1 / (1 - new_lag2) else 1)
    if HALT_POWER_GRADIENT < gradient2 then
      { u with position := old_pos, halted := true }
    else if u.position ≠ old_pos then
      { u with halted := false }
    else u

/-- `Unit.move_towards` (`dt` is the missing `Config.DELTA_T`). -/
def move_towards (u : Unit K) (dt target speed : K) : Unit K :=
  if u.position < target then
    u.move_to (min (u.position + speed * BASE_SPEED * dt) target)
  else if target < u.position then
    u.move_to (max (u.position - speed * BASE_SPEED * dt) target)
  else u

def deploy_close_to (u : Unit K) (file : ℤ) (ref_pos : K) : Unit K :=
  let u1 : Unit K := { u with file := file }
  let position :=
    if u1.moving_to_pos then
      max (ref_pos - RESERVE_DIST_BEHIND) (u1.init_pos + MIN_DEPLOY_DIST)
    else
      min (ref_pos + RESERVE_DIST_BEHIND) (u1.init_pos - MIN_DEPLOY_DIST)
  u1.move_to position

def move_safely_away_from_pos (u : Unit K) (ref_pos : K) : Unit K :=
  if u.position < ref_pos + 1 ∧ u.moving_to_neg then u.move_to (ref_pos + 1)
  else if ref_pos - 1 < u.position ∧ u.moving_to_pos then u.move_to (ref_pos - 1)
  else u

end Unit

variable {α β : Type}

/- Association-list model of Python dicts keyed by file (signed int), with
Python's insertion-order semantics: lookup finds the (unique) matching key,
update replaces in place, insertion appends at the end, deletion removes
the matching entry. -/

def dictGet {κ : Type} [BEq κ] (l : List (κ × α)) (k : κ) : Option α :=
  (l.find? fun p => p.1 == k).map (·.2)

def dictSet (l : List (ℤ × α)) (k : ℤ) (v : α) : List (ℤ × α) :=
  if l.any fun p => p.1 == k then
    l.map fun p => if p.1 == k then (k, v) else p
  else l ++ [(k, v)]

def dictDel (l : List (ℤ × α)) (k : ℤ) : List (ℤ × α) :=
  l.eraseP fun p => p.1 == k

def dictModify (l : List (ℤ × α)) (k : ℤ) (f : α → α) : List (ℤ × α) :=
  l.map fun p => if p.1 == k then (p.1, f p.2) else p

def dictKeys (l : List (ℤ × α)) : List ℤ := l.map (·.1)

/-- Python `max(iterable, default=d)` for numeric iterables. -/
def listMaxD (l : List K) (d : K) : K :=
  match l with
  | [] => d
  | x :: xs => xs.foldl max x

/-- Python `min(iterable, default=d)` for numeric iterables. -/
def listMinD (l : List K) (d : K) : K :=
  match l with
  | [] => d
  | x :: xs => xs.foldl min x

/-- Python `min(iterable, key=f, default=None)`: the first element with
minimal key (Python keeps the current best unless a later item is strictly
smaller). -/
def argminByFirst (f : β → K) : List β → Option β
  | [] => none
  | x :: xs => some (xs.foldl (fun b c => if f c < f b then c else b) x)

/-- src/Battle.py `Army`: deployed units keyed by file, a reserve queue and
a removed list. -/
structure Army (K : Type) where
  name : String
  stance : Stance
  color : String
  file_units : List (ℤ × Unit K)
  reserves : List (Unit K)
  removed : List (Unit K)
deriving DecidableEq

namespace Army

def deployed_units (a : Army K) : List (Unit K) := a.file_units.map (·.2)

/-- `Army.units`: chain(deployed, reserves, removed). -/
def units (a : Army K) : List (Unit K) := a.deployed_units ++ a.reserves ++ a.removed

def defeated (a : Army K) : Bool := a.file_units.isEmpty

/-- `Army.reserve_power`: logarithmic soft cap on the total base power of
the reserve queue. -/
def reserve_power (T : Transcend K) (a : Army K) : K :=
  let total := (a.reserves.map Unit.power).sum
  RESERVES_POWER * RESERVES_SOFT_CAP * T.log (1 + total / RESERVES_SOFT_CAP)

def get_army_reach (a : Army K) : K :=
  1 + listMaxD (a.deployed_units.map fun x => x.att_range + 2 * x.speed) 3

def is_file_active (a : Army K) (file : ℤ) : Bool :=
  (dictGet a.file_units file).isSome

/-- `Army.is_file_towards_centre_active`.  The source asserts `file != 0`;
all call sites guard on it. -/
def is_file_towards_centre_active (a : Army K) (file : ℤ) : Bool :=
  a.is_file_active (if file < 0 then file + 1 else file - 1)

/-- `Army.get_neighbors`: the unit in the given file (first, for sorting
priority, when `include_self`) followed by the units in the two adjacent
files, when present. -/
def get_neighbors (a : Army K) (file : ℤ) (include_self : Bool) : List (Unit K) :=
  (if include_self then (dictGet a.file_units file).toList else [])
    ++ (dictGet a.file_units (file - 1)).toList
    ++ (dictGet a.file_units (file + 1)).toList

/-- `Army.get_blocking_unit`: which unit would the enemy first encounter,
if any. -/
def get_blocking_unit (a : Army K) (enemy : Unit K) : Option (Unit K) :=
  argminByFirst
    (fun unit => unit.get_dist_to enemy.position
      + (if enemy.is_in_front unit then 0 else SIDE_RANGE_PENALTY))
    (a.get_neighbors enemy.file true)

/-- `Army.get_backwards_neighbor`: the unit adjacent to (or equal to) the
given one that is furthest back, or `none` if that unit is the given one
itself. -/
def get_backwards_neighbor (a : Army K) (ref_unit : Unit K) : Option (Unit K) :=
  match argminByFirst (fun unit => unit.get_dist_to unit.init_pos)
      (a.get_neighbors ref_unit.file true) with
  | none => none
  | some u => if u.uid = ref_unit.uid then none else some u

/-- `Army.get_minimum_laggard_speed`.  The source takes `min` with no
default; its comment notes the unit itself is always in the loop, so the
empty case is unreachable (the model returns the unit's own speed there). -/
def get_minimum_laggard_speed (a : Army K) (unit : Unit K) (landscape : Landscape K) : K :=
  listMinD
    ((a.deployed_units.filter fun x =>
        decide (x.get_dist_to x.init_pos ≤ unit.get_dist_to unit.init_pos)).map
      fun x => x.get_eff_speed landscape)
    (unit.get_eff_speed landscape)

/-- `Army.get_cohesive_speed`: own speed when moving backwards, otherwise
the slowest speed among units that lag equally or more. -/
def get_cohesive_speed (a : Army K) (unit : Unit K) (pos_target : K)
    (landscape : Landscape K) : K :=
  if unit.moving_to_pos ∧ pos_target < unit.position then unit.get_eff_speed landscape
  else if unit.moving_to_neg ∧ unit.position < pos_target then unit.get_eff_speed landscape
  else a.get_minimum_laggard_speed unit landscape

/-- `Army.add` (the fresh Python object is modelled by a caller-supplied
`uid`). -/
def add (a : Army K) (uidv : ℕ) (file : ℤ) (unit_type : UnitType K) : Army K :=
  { a with file_units := dictSet a.file_units file (mkUnit uidv unit_type a.stance file) }

/-- One step of `Army.add_reserves`. -/
def add_reserve (a : Army K) (uidv : ℕ) (unit_type : UnitType K) : Army K :=
  { a with reserves := a.reserves ++ [mkUnit uidv unit_type a.stance 0] }

/-- `Army.set_up`: sort the file dict by file, then set up every unit. -/
def set_up (a : Army K) (init_pos : K) : Army K :=
  let sorted := a.file_units.mergeSort fun p q => p.1 ≤ q.1
  { a with file_units := sorted.map fun p => (p.1, p.2.set_up init_pos),
           reserves := a.reserves.map (·.set_up init_pos),
           removed := a.removed.map (·.set_up init_pos) }

/-- `Army.change_all_units_morale`: deployed units and reserves only. -/
def change_all_units_morale (a : Army K) (change : K) : Army K :=
  { a with
    file_units := a.file_units.map fun p => (p.1, { p.2 with morale := p.2.morale + change }),
    reserves := a.reserves.map fun u => { u with morale := u.morale + change } }

def move_unit_safely_away_from_enemy (a : Army K) (enemy : Unit K) : Army K :=
  { a with file_units :=
      dictModify a.file_units enemy.file (·.move_safely_away_from_pos enemy.position) }

/-- `Army.deploy_reserve_to_file`: pop the reserve queue (FIFO), deploy the
unit close to the reference position, ask the opposing army to move its
occupant of that file safely away, and register the unit in the file dict. -/
def deploy_reserve_to_file (a other : Army K) (file : ℤ) (ref_pos : K) :
    Army K × Army K :=
  match a.reserves with
  | [] => (a, other)
  | new_unit :: rest =>
    let nu := new_unit.deploy_close_to file ref_pos
    let other2 := other.move_unit_safely_away_from_enemy nu
    ({ a with reserves := rest, file_units := dictSet a.file_units file nu }, other2)

/-- `Army.remove_unit`: delete from the file dict, append to removed, then
backfill the vacated file from the reserves.  The source asserts that the
removed unit is the one deployed at its file; on states violating the
assertion the source aborts (the model returns the state unchanged). -/
def remove_unit (a other : Army K) (u : Unit K) : Army K × Army K :=
  match dictGet a.file_units u.file with
  | some u2 =>
    if u2.uid = u.uid then
      let a2 : Army K :=
        { a with file_units := dictDel a.file_units u.file, removed := a.removed ++ [u2] }
      deploy_reserve_to_file a2 other u.file u2.position
    else (a, other)
  | none => (a, other)

/-- `Army.slide_file_towards_centre`.  The source asserts that the
centre-ward file is inactive and indexes `file_units[file]`; on states
violating either the source aborts (the model returns the army unchanged). -/
def slide_file_towards_centre (a : Army K) (file : ℤ) : Army K :=
  let new_file := if file < 0 then file + 1 else file - 1
  if a.is_file_towards_centre_active file then a
  else
    match dictGet a.file_units file with
    | none => a
    | some u =>
      let a2 : Army K :=
        { a with file_units := dictSet a.file_units new_file { u with file := new_file } }
      { a2 with file_units := dictDel a2.file_units file }

end Army

/-- src/Battle.py `invert_dictionary`, specialised to the unit-identity
(uid) keyed assignment dict: takes `{x1: y1, x2: y2, x3: y2, ...}` and
returns `{y1: {x1}, y2: {x2, x3}, ...}` (buckets kept in insertion order). -/
def invert_dictionary (init : List (ℕ × ℕ)) : List (ℕ × List ℕ) :=
  init.foldl
    (fun output p =>
      if output.any fun q => q.1 == p.2 then
        output.map fun q => if q.1 == p.2 then (q.1, q.2 ++ [p.1]) else q
      else output ++ [(p.2, [p.1])])
    []

/-- Identity-keyed lookup in the assignment dict (`self._assignments` is
keyed by `Unit` objects, which hash and compare by identity). -/
def alookup (l : List (Unit K × Unit K)) (u : Unit K) : Option (Unit K) :=
  (l.find? fun p => p.1.uid == u.uid).map (·.2)

/-- The twelve-component sort key of `FightPairs.assign_best_remaining`
(nine lexicographic priority levels; levels 8 and 9 span several
components), ordered lexicographically.  Python booleans compare as
`False < True`; they are embedded as `Bool.toNat` (0 and 1) because the
order on them must compute. -/
abbrev FPSortKey (K : Type) :=
  ℕ ×ₗ ℕ ×ₗ ℕ ×ₗ ℕ ×ₗ ℕ ×ₗ K ×ₗ K ×ₗ ℤ ×ₗ ℤ ×ₗ ℤ ×ₗ ℤ ×ₗ K

/-- `sort_key` inside `FightPairs.assign_best_remaining`:
`(frontal and melee, melee, frontal, attacker, unassigned, -dist,
-unit.att_range, abs(unit.file), abs(target.file), unit.file, target.file,
unit.position)`. -/
def fp_sort_key (asg : List (Unit K × Unit K)) (unit target : Unit K) : FPSortKey K :=
  let assigned_to := invert_dictionary (asg.map fun p => (p.1.uid, p.2.uid))
  let frontal := unit.is_in_front target
  let dist := unit.get_dist_to target.position
  let melee : Bool :=
    if frontal then decide (dist ≤ 1 + EPS)
    else decide (dist ≤ 1 - SIDE_RANGE_PENALTY + EPS)
  let attacker : Bool := ((dictGet assigned_to unit.uid).getD []).contains target.uid
  let unassigned : Bool := !(asg.any fun p => p.1.uid == target.uid)
  toLex ((frontal && melee).toNat, toLex (melee.toNat, toLex (frontal.toNat,
    toLex (attacker.toNat, toLex (unassigned.toNat, toLex (-dist,
    toLex (-unit.att_range, toLex (|unit.file|, toLex (|target.file|,
    toLex (unit.file, toLex (target.file, unit.position)))))))))))

namespace FightPairsDefs

/-- `FightPairs.get_valid_targets`: the opposing unit in the given file,
if in range. -/
def get_valid_targets (file : ℤ) (unit : Unit K) (opposing : Army K) : List (Unit K) :=
  match dictGet opposing.file_units file with
  | some target => if unit.is_in_range_of target then [target] else []
  | none => []

/-- `FightPairs.add_single_potentials`: targets in the own file and the two
adjacent files (the source unions three sets of at most one unit each,
necessarily distinct, so a list keeps the model faithful). -/
def add_single_potentials (file : ℤ) (unit : Unit K) (opposing : Army K) : List (Unit K) :=
  get_valid_targets file unit opposing
    ++ get_valid_targets (file - 1) unit opposing
    ++ get_valid_targets (file + 1) unit opposing

/-- `FightPairs.add_all_potentials`: army 1's deployed units first, then
army 2's, in file-dict order; units with no targets get no entry. -/
def add_all_potentials (army_1 army_2 : Army K) : List (Unit K × List (Unit K)) :=
  (army_1.file_units.filterMap fun p =>
    let ts := add_single_potentials p.1 p.2 army_2
    if ts.isEmpty then none else some (p.2, ts))
  ++ (army_2.file_units.filterMap fun p =>
    let ts := add_single_potentials p.1 p.2 army_1
    if ts.isEmpty then none else some (p.2, ts))

/-- `FightPairs.assign_if_unique_target`: every unit with exactly one
candidate target is assigned it (in iteration order) and removed from the
potentials dict. -/
def assign_if_unique_target (pots : List (Unit K × List (Unit K)))
    (asg : List (Unit K × Unit K)) :
    List (Unit K × List (Unit K)) × List (Unit K × Unit K) :=
  (pots.filter fun p => decide (p.2.length ≠ 1),
   asg ++ pots.filterMap fun p => match p.2 with
     | [t] => some (p.1, t)
     | _ => none)

/-- `FightPairs.assign_best_remaining`: flatten the candidate pool, pick
the pair maximising `fp_sort_key` (Python `max` keeps the first maximal
element), record the assignment and drop the attacker from the potentials
dict.  On an empty pool the source would raise (`max` of an empty
generator); the model empties the pool, which is unreachable since every
potentials entry has a nonempty target list. -/
def assign_best_remaining (pots : List (Unit K × List (Unit K)))
    (asg : List (Unit K × Unit K)) :
    List (Unit K × List (Unit K)) × List (Unit K × Unit K) :=
  let pool := pots.flatMap fun p => p.2.map fun t => (p.1, t)
  match List.argmax (fun q : Unit K × Unit K => fp_sort_key asg q.1 q.2) pool with
  | some (unit, target) =>
      (pots.eraseP (fun q => q.1.uid == unit.uid), asg ++ [(unit, target)])
  | none => ([], asg)

/-- The `while self._potentials:` loop of `FightPairs.assign_all`, with
explicit fuel (each pass removes the chosen attacker's entry, so
`pots.length` passes suffice). -/
def best_remaining_loop :
    ℕ → List (Unit K × List (Unit K)) × List (Unit K × Unit K) →
    List (Unit K × List (Unit K)) × List (Unit K × Unit K)
  | 0, s => s
  | fuel + 1, s =>
    if s.1.isEmpty then s else best_remaining_loop fuel (assign_best_remaining s.1 s.2)

/-- The `while remaining:` loop of `FightPairs.match_into_pairs`.  Python
pops from a `set` in unspecified order; the model pops in dict insertion
order.  State is (two-way pairs, one-way pairs, engaged uids). -/
def match_aux (asg : List (Unit K × Unit K)) :
    ℕ → List (Unit K) →
    List (Unit K × Unit K) × List (Unit K × Unit K) × List ℕ →
    List (Unit K × Unit K) × List (Unit K × Unit K) × List ℕ
  | 0, _, st => st
  | _ + 1, [], st => st
  | fuel + 1, unit_A :: rest, (tw, ow, eng) =>
    match alookup asg unit_A with
    | none => match_aux asg fuel rest (tw, ow, eng)
    | some unit_B =>
      if (alookup asg unit_B).any (fun x => x.uid == unit_A.uid) then
        match_aux asg fuel (rest.eraseP fun x => x.uid == unit_B.uid)
          (tw ++ [(unit_A, unit_B)], ow, eng ++ [unit_A.uid, unit_B.uid])
      else
        match_aux asg fuel rest
          (tw, ow ++ [(unit_A, unit_B)], eng ++ [unit_A.uid, unit_B.uid])

/-- `FightPairs.match_into_pairs` on a finished assignment dict. -/
def match_into_pairs (asg : List (Unit K × Unit K)) :
    List (Unit K × Unit K) × List (Unit K × Unit K) × List ℕ :=
  match_aux asg asg.length (asg.map (·.1)) ([], [], [])

end FightPairsDefs

/-- The assignment dictionary read by identity: unit ids standing for the
Python object keys of `FightPairs.assignments`. -/
def uidAssign (asg : List (Unit K × Unit K)) : List (ℕ × ℕ) :=
  asg.map fun p => (p.1.uid, p.2.uid)

/-- src/Battle.py `FightPairs`: the per-turn matching engine with its five
working fields. -/
structure FightPairs (K : Type) where
  army_1 : Army K
  army_2 : Army K
  potentials : List (Unit K × List (Unit K))
  assignments : List (Unit K × Unit K)
  two_way_pairs : List (Unit K × Unit K)
  one_way_pairs : List (Unit K × Unit K)
  all_engaged : List ℕ
deriving DecidableEq

namespace FightPairs

/-- `FightPairs.reset`. -/
def reset (fp : FightPairs K) : FightPairs K :=
  { fp with potentials := [], assignments := [], two_way_pairs := [],
            one_way_pairs := [], all_engaged := [] }

/-- `FightPairs.assign_all`: reset, generate candidates, assign unique
targets, iterate best-remaining until the pool is empty, then partition
into pairs. -/
def assign_all (fp : FightPairs K) : FightPairs K :=
  let fp1 := fp.reset
  let pots := FightPairsDefs.add_all_potentials fp1.army_1 fp1.army_2
  let s1 := FightPairsDefs.assign_if_unique_target pots fp1.assignments
  let s2 := FightPairsDefs.best_remaining_loop s1.1.length s1
  let r := FightPairsDefs.match_into_pairs s2.2
  { fp1 with potentials := s2.1, assignments := s2.2, two_way_pairs := r.1,
             one_way_pairs := r.2.1, all_engaged := r.2.2 }

/-- A fresh `FightPairs` for two armies (the attrs `init=False` field
defaults). -/
def make (army_1 army_2 : Army K) : FightPairs K :=
  { army_1 := army_1, army_2 := army_2, potentials := [], assignments := [],
    two_way_pairs := [], one_way_pairs := [], all_engaged := [] }

end FightPairs

/-- `Battle.FILE_MEAN` class attribute. -/
def FILE_MEAN : K := (FILE_SUPPORTED + FILE_VULNERABLE) / 2

/-- `Battle.FILE_DIFF` class attribute. -/
def FILE_DIFF : K := FILE_SUPPORTED - FILE_VULNERABLE

/-- src/Battle.py `Battle`: the two armies and the turn counter.  The
landscape reference is passed as a parameter `L` (it is missing from src/,
see `Landscape`), and the persistent `fight_pairs` object is represented
by the `engaged` uid list, the only matching output read outside the fight
phase (`move_towards_haltingly` and `call_neighbors_forward` read
`fight_pairs.all_engaged`; the pair lists are only read by printing). -/
structure Battle (K : Type) where
  army_1 : Army K
  army_2 : Army K
  turns : ℕ
  engaged : List ℕ
deriving DecidableEq

namespace Battle

/-- `Battle.iter_all_deployed`: army 1's deployed units, then army 2's. -/
def iter_all_deployed (b : Battle K) : List (Unit K) :=
  b.army_1.deployed_units ++ b.army_2.deployed_units

/-- The side an army: `true` is army 1, `false` is army 2. -/
def armyOf (b : Battle K) (side : Bool) : Army K :=
  if side then b.army_1 else b.army_2

def setArmy (b : Battle K) (side : Bool) (a : Army K) : Battle K :=
  if side then { b with army_1 := a } else { b with army_2 := a }

/-- `Battle.get_army_deployed_in` combined with `Battle.get_other_army`:
resolves the side of a deployed unit by checking each army's file dict at
the unit's file for the identical object.  The source raises `ValueError`
when the unit is deployed in neither army; the model returns `none` and
callers skip (all call sites pass deployed units). -/
def get_army_deployed_in (b : Battle K) (u : Unit K) : Option Bool :=
  if (dictGet b.army_1.file_units u.file).any fun x => x.uid == u.uid then some true
  else if (dictGet b.army_2.file_units u.file).any fun x => x.uid == u.uid then some false
  else none

/-- Fetch the current state of a deployed unit by identity, together with
its side.  This models dereferencing a live Python object reference. -/
def findDeployed (b : Battle K) (uidv : ℕ) : Option (Unit K × Bool) :=
  match b.army_1.file_units.find? fun p => p.2.uid == uidv with
  | some p => some (p.2, true)
  | none =>
    match b.army_2.file_units.find? fun p => p.2.uid == uidv with
    | some p => some (p.2, false)
    | none => none

/-- In-place mutation of the unit with the given identity, wherever it is
referenced (deployed units, reserves, removed). -/
def modifyUnit (b : Battle K) (uidv : ℕ) (f : Unit K → Unit K) : Battle K :=
  let g : Unit K → Unit K := fun u => if u.uid = uidv then f u else u
  let h : Army K → Army K := fun a =>
    { a with file_units := a.file_units.map fun p => (p.1, g p.2),
             reserves := a.reserves.map g, removed := a.removed.map g }
  { b with army_1 := h b.army_1, army_2 := h b.army_2 }

/-- `Battle.is_battle_ended`. -/
def is_battle_ended (b : Battle K) : Bool :=
  if b.army_1.defeated then true
  else if b.army_2.defeated then true
  else if b.iter_all_deployed.all (·.halted) then true
  else if 1000 < b.turns then true
  else false

/-- `Battle.decide_winner`. -/
def decide_winner (b : Battle K) : BattleOutcome :=
  if b.army_1.defeated && b.army_2.defeated then BattleOutcome.BOTH_LOST
  else if !b.army_1.defeated && b.army_2.defeated then BattleOutcome.WIN_1
  else if b.army_1.defeated && !b.army_2.defeated then BattleOutcome.WIN_2
  else BattleOutcome.STALEMATE

/-- `Battle._morale_from_mean_clash_distance`. -/
def morale_from_mean_clash_distance (mean_dist : K) : K :=
  if 1 / 2 < mean_dist then FILE_SUPPORTED
  else if mean_dist < -(1 / 2) then FILE_VULNERABLE
  else FILE_MEAN + mean_dist * FILE_DIFF

/-- `Battle._morale_from_contested_file` (the enemy occupant of the file
exists at every call site; the model returns 0 otherwise). -/
def morale_from_contested_file (u : Unit K) (file : ℤ) (army enemy : Army K) : K :=
  match dictGet enemy.file_units file with
  | none => 0
  | some ef =>
    let ene_dist := u.get_signed_distance_to_unit ef
    let own_dist : K :=
      match dictGet army.file_units file with
      | some af => max (-RESERVE_DIST_BEHIND) (u.get_signed_distance_to_unit af)
      | none => -RESERVE_DIST_BEHIND
    let weight := RESERVE_DIST_BEHIND - 1 / 2
    let mean_dist := (weight * ene_dist + own_dist) / (1 + weight)
    let morale := morale_from_mean_clash_distance mean_dist
    if army.is_file_active file then morale else min 0 morale

/-- `Battle.get_morale_from_supporting_file`. -/
def get_morale_from_supporting_file (b : Battle K) (u : Unit K) (file : ℤ) : K :=
  match b.get_army_deployed_in u with
  | none => 0
  | some side =>
    let army := b.armyOf side
    let enemy := b.armyOf (!side)
    if enemy.is_file_active file then morale_from_contested_file u file army enemy
    else if army.is_file_active file then FILE_SUPPORTED
    else FILE_EMPTY

/-- `Battle.get_unit_eff_morale`. -/
def get_unit_eff_morale (b : Battle K) (u : Unit K) : K :=
  max 0 (u.morale + b.get_morale_from_supporting_file u (u.file + 1)
    + b.get_morale_from_supporting_file u (u.file - 1))

/-- `Battle.get_unit_power_from_morale`. -/
def get_unit_power_from_morale (T : Transcend K) (b : Battle K) (u : Unit K) : K :=
  -LOW_MORALE_POWER * (1 - T.rpow (b.get_unit_eff_morale u) (1 + u.rigidity))

/-- `Battle.get_unit_eff_power`. -/
def get_unit_eff_power (T : Transcend K) (L : Landscape K) (b : Battle K) (u : Unit K) : K :=
  u.power + u.get_power_from_terrain L
    + (match b.get_army_deployed_in u with
       | some side => (b.armyOf side).reserve_power T
       | none => 0)
    + b.get_unit_power_from_morale T u

/-- `Battle.get_unit_pos_desire`. -/
def get_unit_pos_desire (T : Transcend K) (L : Landscape K) (b : Battle K) (u : Unit K) : K :=
  b.get_unit_eff_power T L u + 10 * L.get_mean_cover u.file u.position

/-- `Battle.compute_fight_balance`: `2.0 ** (power_dif / (2*POWER_SCALE))`. -/
def compute_fight_balance (T : Transcend K) (L : Landscape K) (b : Battle K)
    (unit_A unit_B : Unit K) : K :=
  T.rpow 2 ((b.get_unit_eff_power T L unit_A - b.get_unit_eff_power T L unit_B)
    / (2 * POWER_SCALE))

/-- `Battle.inflict_casualties`. -/
def inflict_casualties (L : Landscape K) (dt : K) (b : Battle K) (uidv : ℕ)
    (balance : K) : Battle K :=
  b.modifyUnit uidv fun u =>
    { u with morale := u.morale - dt * (1 - L.get_mean_cover u.file u.position) * balance }

/-- `Battle._push_from_winner`: the loser runs according to its speed, how
badly it lost and its rigidity, capped by the winner's speed; the winner
chases only if that keeps the fight active. -/
def push_from_winner (L : Landscape K) (dt : K) (b : Battle K)
    (winnerUid loserUid : ℕ) (balance : K) : Battle K :=
  match b.findDeployed winnerUid, b.findDeployed loserUid with
  | some (w, _), some (l, _) =>
    let loser_speed_scale := min 1 ((balance - 1) / (1 + l.rigidity))
    let dist0 := min (w.get_eff_speed L) (l.get_eff_speed L * loser_speed_scale)
    let dist := dist0 * BASE_SPEED * dt * (if w.moving_to_pos then 1 else -1)
    let b2 := b.modifyUnit loserUid (·.move_by dist)
    match b2.findDeployed winnerUid, b2.findDeployed loserUid with
    | some (w2, _), some (l2, _) =>
      if !(w2.is_in_range_of l2) || !(l2.is_in_range_of w2) then
        b2.modifyUnit winnerUid (·.move_by dist)
      else b2
    | _, _ => b2
  | _, _ => b

/-- `Battle.push_from_fight`. -/
def push_from_fight (L : Landscape K) (dt : K) (b : Battle K) (uidA uidB : ℕ)
    (balance : K) : Battle K :=
  if 1 < balance then push_from_winner L dt b uidA uidB balance
  else if balance < 1 then push_from_winner L dt b uidB uidA (1 / balance)
  else b

/-- `Battle.call_neighbors_forward`: uninvolved neighbors with
equal-or-greater speed are pulled into at-least-neutral stance. -/
def call_neighbors_forward (b : Battle K) (uidv : ℕ) : Battle K :=
  match b.findDeployed uidv with
  | none => b
  | some (unit, side) =>
    ((b.armyOf side).get_neighbors unit.file false).foldl
      (fun b n =>
        if b.engaged.contains n.uid then b
        else if unit.speed ≤ n.speed then
          b.modifyUnit n.uid fun u => { u with stance := u.stance.minStance Stance.NEUT }
        else b)
      b

/-- `Battle.fight_two_way` (pairs hold object references; current unit
state is re-fetched by identity). -/
def fight_two_way (T : Transcend K) (L : Landscape K) (dt : K) (b : Battle K)
    (pA pB : Unit K) : Battle K :=
  match b.findDeployed pA.uid, b.findDeployed pB.uid with
  | some (A, _), some (B, _) =>
    let balance := compute_fight_balance T L b A B
    let b2 := inflict_casualties L dt b A.uid (1 / balance)
    let b3 := inflict_casualties L dt b2 B.uid balance
    push_from_fight L dt b3 A.uid B.uid balance
  | _, _ => b

/-- `Battle.fight_one_way`. -/
def fight_one_way (T : Transcend K) (L : Landscape K) (dt : K) (b : Battle K)
    (pA pB : Unit K) : Battle K :=
  match b.findDeployed pA.uid, b.findDeployed pB.uid with
  | some (A, _), some (B, _) =>
    let balance := compute_fight_balance T L b A B
    let b2 := inflict_casualties L dt b B.uid balance
    let b3 := b2.modifyUnit B.uid fun u => { u with stance := Stance.AGGR }
    call_neighbors_forward b3 B.uid
  | _, _ => b

/-- Store the engaged set computed by the fight phase (the persistent
`fight_pairs.all_engaged` of the source). -/
def setEngaged (b : Battle K) (e : List ℕ) : Battle K := { b with engaged := e }

/-- `Battle.fight`: recompute the pairings from the current army state,
then process two-way pairs, then one-way pairs. -/
def fight (T : Transcend K) (L : Landscape K) (dt : K) (b : Battle K) : Battle K :=
  let fp := (FightPairs.make b.army_1 b.army_2).assign_all
  let b1 : Battle K := b.setEngaged fp.all_engaged
  let b2 := fp.two_way_pairs.foldl (fun b p => fight_two_way T L dt b p.1 p.2) b1
  fp.one_way_pairs.foldl (fun b p => fight_one_way T L dt b p.1 p.2) b2

/-- `Battle.change_morale_from_first_pursue`: a one-time morale penalty on
the opposing army for each unit that has just reached its advance limit.
The loop only mutates morale, never the tested flags, so the snapshot
carries the tested values; each unit's side is resolved as in the source. -/
def change_morale_from_first_pursue (b : Battle K) : Battle K :=
  b.iter_all_deployed.foldl
    (fun b u =>
      if u.at_end && !u.pursuing then
        match b.get_army_deployed_in u with
        | some side => b.setArmy (!side) ((b.armyOf (!side)).change_all_units_morale PURSUE_MORALE)
        | none => b
      else b)
    b

/-- `Battle.reduce_files`: a pursuing unit with no blocking enemy slides
towards the centre when the centre-ward file is free.  The snapshot is
`list(...)` in the source; live unit state is re-fetched by identity. -/
def reduce_files (b : Battle K) : Battle K :=
  b.iter_all_deployed.foldl
    (fun b u0 =>
      match b.findDeployed u0.uid with
      | none => b
      | some (u, side) =>
        if u.pursuing && decide (u.file ≠ 0) then
          match (b.armyOf (!side)).get_blocking_unit u with
          | none =>
            if !(b.armyOf side).is_file_towards_centre_active u.file then
              b.setArmy side ((b.armyOf side).slide_file_towards_centre u.file)
            else b
          | some _ => b
        else b)
    b

/-- `Battle.update_status`: reset stance to the army baseline, then remove
the unit (with reserve backfill) when effective morale is zero or it is
back home, else set or clear `pursuing`. -/
def update_status (b : Battle K) : Battle K :=
  b.iter_all_deployed.foldl
    (fun b u0 =>
      match b.findDeployed u0.uid with
      | none => b
      | some (u, side) =>
        let b1 := b.modifyUnit u.uid fun x => { x with stance := (b.armyOf side).stance }
        match b1.findDeployed u.uid with
        | none => b1
        | some (u1, side1) =>
          if b1.get_unit_eff_morale u1 ≤ 0 ∨ u1.at_home then
            let pr := (b1.armyOf side1).remove_unit (b1.armyOf (!side1)) u1
            (b1.setArmy side1 pr.1).setArmy (!side1) pr.2
          else if u1.at_end && decide (0 < b1.get_unit_eff_morale u1) then
            b1.modifyUnit u1.uid fun x => { x with pursuing := true }
          else
            b1.modifyUnit u1.uid fun x => { x with pursuing := false })
    b

/-- `Battle.tidy`. -/
def tidy (b : Battle K) : Battle K :=
  b.change_morale_from_first_pursue.reduce_files.update_status

/-- The sort key of `Battle.get_move_order`: `(stance, -speed, att_range,
abs(file), -abs(position), file, position)`. -/
def move_order_key (x : Unit K) : ℕ ×ₗ K ×ₗ K ×ₗ ℤ ×ₗ K ×ₗ ℤ ×ₗ K :=
  toLex (x.stance.value, toLex (-x.speed, toLex (x.att_range, toLex (|x.file|,
    toLex (-|x.position|, toLex (x.file, x.position))))))

/-- `Battle.get_move_order`: melee units in the centre move first (Python
`sorted` is stable and ascending, as is `mergeSort`). -/
def get_move_order (b : Battle K) : List (Unit K) :=
  b.iter_all_deployed.mergeSort fun x y => decide (move_order_key x ≤ move_order_key y)

/-- `Battle.move_towards_haltingly`: move, then confirm the move against
the power-gradient and flank-lag rules, rolling it back if refused.  The
source divides the desire change by the distance moved; when the rounded
move leaves the position unchanged Python would raise `ZeroDivisionError`,
while in the model the division yields 0. -/
def move_towards_haltingly (T : Transcend K) (L : Landscape K) (dt : K) (b : Battle K)
    (uidv : ℕ) (target speed : K) : Battle K :=
  match b.findDeployed uidv with
  | none => b
  | some (unit, side) =>
    let army := b.armyOf side
    let backwards := army.get_backwards_neighbor unit
    let old_pos := unit.position
    let old_desire := b.get_unit_pos_desire T L unit
    let old_lag := match backwards with
      | some x => unit.get_dist_to x.position
      | none => 0
    let b1 := b.modifyUnit uidv fun x => x.move_towards dt target speed
    match b1.findDeployed uidv with
    | none => b1
    | some (u1, _) =>
      let new_desire := b1.get_unit_pos_desire T L u1
      let new_lag := match backwards with
        | some x => u1.get_dist_to x.position
        | none => 0
      let power_grad := (old_desire - new_desire) / u1.get_dist_to old_pos
      let power_grad := power_grad *
        (((army.get_neighbors unit.file false).filter fun n =>
            b1.engaged.contains n.uid).foldl (fun acc _ => acc * (1 / 2)) 1)
      b1.modifyUnit uidv fun x => x.confirm_move power_grad old_pos old_lag new_lag

/-- `Battle.move_unit_towards_in_stance`: stance-specific speed rule.  The
`match` is exhaustive over the three stances (the source raises on any
other value). -/
def move_unit_towards_in_stance (T : Transcend K) (L : Landscape K) (dt : K)
    (b : Battle K) (uidv : ℕ) (target : K) : Battle K :=
  match b.findDeployed uidv with
  | none => b
  | some (unit, side) =>
    let quick := unit.get_eff_speed L
    let slow := (b.armyOf side).get_cohesive_speed unit target L
    match unit.stance with
    | Stance.AGGR => b.modifyUnit uidv fun x => x.move_towards dt target quick
    | Stance.NEUT => b.modifyUnit uidv fun x =>
        x.move_towards dt target (if unit.is_charge_range_of target then quick else slow)
    | Stance.DEFN => move_towards_haltingly T L dt b uidv target slow

/-- `Battle.move`: process units in move order; with no blocking enemy
advance towards the far edge, otherwise approach the attack position in
the unit's stance.  Later units see the already-updated positions of
earlier ones. -/
def move (T : Transcend K) (L : Landscape K) (dt : K) (b : Battle K) : Battle K :=
  b.get_move_order.foldl
    (fun b u0 =>
      match b.findDeployed u0.uid with
      | none => b
      | some (u, side) =>
        match (b.armyOf (!side)).get_blocking_unit u with
        | none => b.modifyUnit u.uid fun x =>
            x.move_towards dt (-x.init_pos) (x.get_eff_speed L)
        | some e =>
          if !(u.is_in_range_of e) then
            move_unit_towards_in_stance T L dt b u.uid (u.get_position_to_attack_target e)
          else b)
    b

/-- `Battle.do_turn` (verbosity only gates printing, which is not part of
the model). -/
def do_turn (T : Transcend K) (L : Landscape K) (dt : K) (b : Battle K) : Battle K :=
  move T L dt (fight T L dt (tidy b))

/-- The `while not self.is_battle_ended()` loop of `Battle.do`, with
explicit fuel.  The turn counter strictly increases each pass and the
ended test fires once it exceeds 1000, so 1002 units of fuel always
suffice from a fresh battle (proved below). -/
def run_loop (T : Transcend K) (L : Landscape K) (dt : K) :
    ℕ → Battle K → Battle K
  | 0, b => b
  | fuel + 1, b =>
    if b.is_battle_ended then b
    else run_loop T L dt fuel (do_turn T L dt { b with turns := b.turns + 1 })

/-- `Battle.do` minus printing: run the loop to completion and decide the
winner.  The final state is exposed (the source returns only the
outcome). -/
def do_battle (T : Transcend K) (L : Landscape K) (dt : K) (b : Battle K) : Battle K :=
  run_loop T L dt 1002 b

/-- `Battle.__attrs_post_init__`: symmetric deployment at the larger army
reach (at least 5). -/
def init (a1 a2 : Army K) : Battle K :=
  let init_pos := max (max a1.get_army_reach a2.get_army_reach) 5
  { army_1 := a1.set_up (-init_pos), army_2 := a2.set_up init_pos,
    turns := 0, engaged := [] }

/-- The battle state with its turn counter replaced (`do_turn` never reads
or writes the counter; this helper expresses that). -/
def withTurns (b : Battle K) (t : ℕ) : Battle K := { b with turns := t }

end Battle

/-- The genuine transcendental operations over the reals: Python's
`math.log` is the natural logarithm and `x ** y` on nonnegative floats is
real exponentiation. -/
noncomputable def realTranscend : Transcend ℝ :=
  { log := Real.log, rpow := fun x y => Real.rpow x y }

/-- The reserve-power formula as a function of the total reserve power,
over the reals: `rate × softCap × ln(1 + total/softCap)`. -/
noncomputable def reserve_power_fn (total : ℝ) : ℝ :=
  RESERVES_POWER * RESERVES_SOFT_CAP * Real.log (1 + total / RESERVES_SOFT_CAP)

/-- The identities of all units an army holds, in its three collections:
deployed (file dict), reserve queue, removed list. -/
def Army.uidList (a : Army K) : List ℕ :=
  a.file_units.map (fun p => p.2.uid) ++ a.reserves.map Unit.uid ++ a.removed.map Unit.uid

/-- The identity multiset of an army (the roster, counted with
multiplicity). -/
def Army.uidMs (a : Army K) : Multiset ℕ := (a.uidList : Multiset ℕ)

/-- An army's file dict has no duplicate keys (true of every Python dict;
an invariant of the association-list model). -/
def Army.NodupKeys (a : Army K) : Prop := (dictKeys a.file_units).Nodup

/-- The two armies' identity multisets as a pair: the quantity every turn
phase must preserve. -/
def Battle.uidMsPair (b : Battle K) : Multiset ℕ × Multiset ℕ :=
  (b.army_1.uidMs, b.army_2.uidMs)

def Battle.KeysOk (b : Battle K) : Prop :=
  b.army_1.NodupKeys ∧ b.army_2.NodupKeys

def Battle.shape (b : Battle K) : List ℕ × List ℕ × List ℤ × List ℤ :=
  (b.army_1.uidList, b.army_2.uidList,
    dictKeys b.army_1.file_units, dictKeys b.army_2.file_units)

/-- `Unit.confirm_move` as clause-by-clause described by the specification:
(1) within the minimum-deploy distance of home the move is kept and
`halted` cleared; (2) a move raising the lag from < 1 to ≥ 1 is rolled
back and `halted` set; (3) otherwise the gradient is scaled by
`1/(1 - new_lag)` (with `new_lag` capped just below 1) only when the lag
increased, a scaled gradient above the halt threshold rolls back and sets
`halted`, and an accepted move clears `halted` only if the position
actually changed. -/
def confirm_move_spec (u : Unit K) (gradient old_pos old_lag new_lag : K) : Unit K :=
  if u.get_dist_to u.init_pos < MIN_DEPLOY_DIST then
    { u with halted := false }
  else if old_lag < 1 ∧ 1 ≤ new_lag then
    { u with position := old_pos, halted := true }
  else
    let capped := min new_lag (1 - EPS)
    let scaled := if old_lag < capped then gradient / (1 - capped) else gradient
    if HALT_POWER_GRADIENT < scaled then
      { u with position := old_pos, halted := true }
    else if u.position ≠ old_pos then
      { u with halted := false }
    else u

/- Concrete scenarios over `K := ℚ`, used by closed witnesses and
counterexamples. -/

/-- A basic melee unit type. -/
def swordType : UnitType ℚ :=
  { name := "Sword", power := 100, rigidity := 0, speed := 1, att_range := 1 }

/-- A longer-ranged unit type (effective range 1 across an adjacent
file). -/
def spearType : UnitType ℚ :=
  { name := "Spear", power := 100, rigidity := 0, speed := 3 / 2, att_range := 3 / 2 }

/-- Scenario for the matching claims: two attackers that can each only
reach the one defender.  `cU1` faces `cV` frontally at distance 1; `cU2`
reaches `cV` across the adjacent file at flank-effective range 1; `cV` can
only reach `cU1` (its flank-effective range against `cU2` is 1/2 at
distance 1). -/
def cU1 : Unit ℚ :=
  { (mkUnit 1 swordType Stance.AGGR 0) with init_pos := -5, position := -1 }

def cU2 : Unit ℚ :=
  { (mkUnit 2 spearType Stance.AGGR 1) with init_pos := -5, position := -1 }

def cV : Unit ℚ :=
  { (mkUnit 3 swordType Stance.AGGR 0) with init_pos := 5, position := 0 }

def cArmy1 : Army ℚ :=
  { name := "Attackers", stance := Stance.AGGR, color := "Red",
    file_units := [(0, cU1), (1, cU2)], reserves := [], removed := [] }

def cArmy2 : Army ℚ :=
  { name := "Defenders", stance := Stance.AGGR, color := "Blue",
    file_units := [(0, cV)], reserves := [], removed := [] }

/-- The matching outcome of the two-attackers scenario. -/
def cFP : FightPairs ℚ := (FightPairs.make cArmy1 cArmy2).assign_all

/-- All units appearing in any pair of the two-attackers scenario (members
of two-way pairs and both members of one-way pairs), by identity. -/
def cPairUids : List ℕ :=
  cFP.two_way_pairs.flatMap (fun p => [p.1.uid, p.2.uid])
    ++ cFP.one_way_pairs.flatMap (fun p => [p.1.uid, p.2.uid])

/-- The two-attackers scenario before matching (the `FightPairs` object as
constructed, `assign_all` not yet run). -/
def wFP : FightPairs ℚ := FightPairs.make cArmy1 cArmy2

/-- A unit freshly set up at the home edge -5: its position is
`-5 + EPS = -4.9995`, half a rounding step inside the edge and off the
3-decimal grid. -/
def uSetUp : Unit ℚ := (mkUnit 0 swordType Stance.AGGR 0).set_up (-5)

/-- A unit whose home distance `4.9997` is not a multiple of `0.001`
(attainable: `get_army_reach` with attack range 1 and speed 1.49985). -/
def uOffGrid : Unit ℚ :=
  { (mkUnit 4 swordType Stance.AGGR 0) with init_pos := 49997 / 10000, position := 0 }

/-- The 1000-turn-cap scenario: one unit per army, both on file 0, a flat
landscape, and a tiny tick (`Config.DELTA_T` is not under src/; spec gives
it no value).  Per-turn movement, `0.00002`, is erased by the 3-decimal
rounding, so the armies reach a fixed point after one turn and nothing
ever ends the battle before the turn cap. -/
def flatLandscape : Landscape ℚ :=
  { get_height := fun _ _ => 0, get_roughness := fun _ _ => 0,
    get_mean_scaled_roughness := fun _ _ _ => 0, get_mean_cover := fun _ _ => 0 }

/-- Transcendental oracle for scenarios in which it is never consulted (no
fight pairs ever form and no defensive-stance movement happens). -/
def unusedTranscend : Transcend ℚ := { log := fun _ => 0, rpow := fun _ _ => 1 }

def dtTiny : ℚ := 1 / 1000000

def dArmy1 : Army ℚ :=
  Army.add { name := "One", stance := Stance.AGGR, color := "Red",
             file_units := [], reserves := [], removed := [] } 1 0 swordType

def dArmy2 : Army ℚ :=
  Army.add { name := "Two", stance := Stance.AGGR, color := "Blue",
             file_units := [], reserves := [], removed := [] } 2 0 swordType

/-- The initial cap-scenario battle (deployment reach is 4, so both sides
set up at distance 5 from the centre). -/
def dB0 : Battle ℚ := Battle.init dArmy1 dArmy2

/-- The cap-scenario state after its first turn; for every later turn the
armies are a fixed point of `do_turn`. -/
def dB1 : Battle ℚ :=
  Battle.do_turn unusedTranscend flatLandscape dtTiny { dB0 with turns := 1 }

/-- The value of `dB1`, written out: after the first turn each unit has
advanced from `∓4.9995` to `∓4.999` (the later per-turn advance of
`0.00002` is erased by the 3-decimal rounding, so this is a fixed point of
the turn function). -/
def dB1val : Battle ℚ :=
  let u1 : Unit ℚ :=
    { uid := 1, unit_type := swordType, stance := Stance.AGGR, file := 0,
      init_pos := -5, position := -4999 / 1000, morale := 1,
      halted := false, pursuing := false }
  let u2 : Unit ℚ :=
    { uid := 2, unit_type := swordType, stance := Stance.AGGR, file := 0,
      init_pos := 5, position := 4999 / 1000, morale := 1,
      halted := false, pursuing := false }
  let a1 : Army ℚ :=
    { name := "One", stance := Stance.AGGR, color := "Red",
      file_units := [(0, u1)], reserves := [], removed := [] }
  let a2 : Army ℚ :=
    { name := "Two", stance := Stance.AGGR, color := "Blue",
      file_units := [(0, u2)], reserves := [], removed := [] }
  { army_1 := a1, army_2 := a2, turns := 1, engaged := [] }

/-- The cap-scenario state at an arbitrary turn count. -/
def dState (t : ℕ) : Battle ℚ := { dB1val with turns := t }

/-- A plain unit used by concrete witnesses. -/
def uW : Unit ℚ :=
  { (mkUnit 9 swordType Stance.AGGR 0) with init_pos := -5, position := 0 }

/-- A battle between two empty armies, used by concrete witnesses (it ends
immediately: both armies are defeated). -/
def wB : Battle ℚ :=
  Battle.init
    { name := "EmptyOne", stance := Stance.AGGR, color := "Red",
      file_units := [], reserves := [], removed := [] }
    { name := "EmptyTwo", stance := Stance.AGGR, color := "Blue",
      file_units := [], reserves := [], removed := [] }

/-- An army over the reals with an empty reserve queue (for the
reserve-power properties). -/
def rArmy : Army ℝ :=
  { name := "R", stance := Stance.NEUT, color := "", file_units := [],
    reserves := [], removed := [] }

end SB

/-! ## Theorems -/

namespace SB

set_option linter.unusedSectionVars false

variable {K : Type} [LinearOrderedField K] [FloorRing K] [DecidableEq K]

/-! ### The turn counter is independent of the turn function

`Battle.do_turn` neither reads nor writes `turns`; the `wt_*` lemmas make
this usable: every battle transformer commutes with `Battle.withTurns`,
and every battle reader is invariant under it. -/

theorem wt_army_1 (b : Battle K) (t : ℕ) : (b.withTurns t).army_1 = b.army_1 := rfl

theorem wt_army_2 (b : Battle K) (t : ℕ) : (b.withTurns t).army_2 = b.army_2 := rfl

theorem wt_engaged (b : Battle K) (t : ℕ) : (b.withTurns t).engaged = b.engaged := rfl

theorem wt_armyOf (b : Battle K) (t : ℕ) (s : Bool) : (b.withTurns t).armyOf s = b.armyOf s := by
  cases s <;> rfl

theorem wt_gadi (b : Battle K) (t : ℕ) (u : Unit K) :
    (b.withTurns t).get_army_deployed_in u = b.get_army_deployed_in u := rfl

theorem wt_findDeployed (b : Battle K) (t : ℕ) (u : ℕ) :
    (b.withTurns t).findDeployed u = b.findDeployed u := rfl

theorem wt_iter (b : Battle K) (t : ℕ) :
    (b.withTurns t).iter_all_deployed = b.iter_all_deployed := rfl

theorem wt_move_order (b : Battle K) (t : ℕ) :
    (b.withTurns t).get_move_order = b.get_move_order := rfl

theorem wt_effmorale (b : Battle K) (t : ℕ) (u : Unit K) :
    (b.withTurns t).get_unit_eff_morale u = b.get_unit_eff_morale u := rfl

theorem wt_desire (T : Transcend K) (L : Landscape K) (b : Battle K) (t : ℕ) (u : Unit K) :
    (b.withTurns t).get_unit_pos_desire T L u = b.get_unit_pos_desire T L u := rfl

theorem wt_balance (T : Transcend K) (L : Landscape K) (b : Battle K) (t : ℕ) (uA uB : Unit K) :
    Battle.compute_fight_balance T L (b.withTurns t) uA uB
      = Battle.compute_fight_balance T L b uA uB := rfl

theorem wt_setArmy (b : Battle K) (t : ℕ) (s : Bool) (a : Army K) :
    (b.withTurns t).setArmy s a = (b.setArmy s a).withTurns t := by
  cases s <;> rfl

theorem wt_modifyUnit (b : Battle K) (t : ℕ) (u : ℕ) (f : Unit K → Unit K) :
    (b.withTurns t).modifyUnit u f = (b.modifyUnit u f).withTurns t := rfl

theorem wt_setEngaged (b : Battle K) (t : ℕ) (e : List ℕ) :
    (b.withTurns t).setEngaged e = (b.setEngaged e).withTurns t := rfl

theorem wt_inflict (L : Landscape K) (dt : K) (b : Battle K) (t : ℕ) (u : ℕ) (bal : K) :
    Battle.inflict_casualties L dt (b.withTurns t) u bal
      = (Battle.inflict_casualties L dt b u bal).withTurns t := rfl

theorem foldl_withTurns {α : Type} (step : Battle K → α → Battle K) (t : ℕ)
    (h : ∀ b x, step (b.withTurns t) x = (step b x).withTurns t) :
    ∀ (l : List α) (b : Battle K),
      l.foldl step (b.withTurns t) = (l.foldl step b).withTurns t := by
  intro l
  induction l with
  | nil => intro b; rfl
  | cons x xs ih => intro b; simp only [List.foldl_cons, h, ih]

theorem wt_push_winner (L : Landscape K) (dt : K) (b : Battle K) (t : ℕ) (w l : ℕ) (bal : K) :
    Battle.push_from_winner L dt (b.withTurns t) w l bal
      = (Battle.push_from_winner L dt b w l bal).withTurns t := by
  unfold Battle.push_from_winner
  rw [wt_findDeployed, wt_findDeployed]
  cases b.findDeployed w <;> cases b.findDeployed l <;>
    simp only [wt_modifyUnit, wt_findDeployed] <;>
    (try rfl) <;> split <;> (try split) <;> rfl

theorem wt_push_fight (L : Landscape K) (dt : K) (b : Battle K) (t : ℕ) (x y : ℕ) (bal : K) :
    Battle.push_from_fight L dt (b.withTurns t) x y bal
      = (Battle.push_from_fight L dt b x y bal).withTurns t := by
  unfold Battle.push_from_fight
  split <;> try split
  all_goals simp only [wt_push_winner]; try rfl

theorem wt_call_neighbors (b : Battle K) (t : ℕ) (u : ℕ) :
    Battle.call_neighbors_forward (b.withTurns t) u
      = (Battle.call_neighbors_forward b u).withTurns t := by
  unfold Battle.call_neighbors_forward
  rw [wt_findDeployed]
  cases b.findDeployed u with
  | none => rfl
  | some p =>
    simp only [wt_armyOf, wt_engaged]
    exact foldl_withTurns _ t
      (fun b n => by
        simp only [wt_engaged, wt_modifyUnit]
        split <;> (try split) <;> rfl) _ b

theorem wt_fight_two_way (T : Transcend K) (L : Landscape K) (dt : K) (b : Battle K)
    (t : ℕ) (pA pB : Unit K) :
    Battle.fight_two_way T L dt (b.withTurns t) pA pB
      = (Battle.fight_two_way T L dt b pA pB).withTurns t := by
  unfold Battle.fight_two_way
  rw [wt_findDeployed, wt_findDeployed]
  cases b.findDeployed pA.uid <;> cases b.findDeployed pB.uid <;>
    simp only [wt_balance, wt_inflict, wt_push_fight] <;> rfl

theorem wt_fight_one_way (T : Transcend K) (L : Landscape K) (dt : K) (b : Battle K)
    (t : ℕ) (pA pB : Unit K) :
    Battle.fight_one_way T L dt (b.withTurns t) pA pB
      = (Battle.fight_one_way T L dt b pA pB).withTurns t := by
  unfold Battle.fight_one_way
  rw [wt_findDeployed, wt_findDeployed]
  cases b.findDeployed pA.uid <;> cases b.findDeployed pB.uid <;>
    simp only [wt_balance, wt_inflict, wt_modifyUnit, wt_call_neighbors] <;> rfl

theorem wt_fight (T : Transcend K) (L : Landscape K) (dt : K) (b : Battle K) (t : ℕ) :
    Battle.fight T L dt (b.withTurns t) = (Battle.fight T L dt b).withTurns t := by
  simp only [Battle.fight]
  rw [wt_army_1, wt_army_2, wt_setEngaged]
  rw [foldl_withTurns _ t (fun b p => wt_fight_two_way T L dt b t p.1 p.2)]
  rw [foldl_withTurns _ t (fun b p => wt_fight_one_way T L dt b t p.1 p.2)]

theorem wt_cmfp (b : Battle K) (t : ℕ) :
    (b.withTurns t).change_morale_from_first_pursue
      = b.change_morale_from_first_pursue.withTurns t := by
  unfold Battle.change_morale_from_first_pursue
  rw [wt_iter]
  exact foldl_withTurns _ t
    (fun b u => by
      simp only [wt_gadi, wt_armyOf, wt_setArmy]
      split <;> (try split) <;> rfl) _ b

theorem wt_reduce_files (b : Battle K) (t : ℕ) :
    (b.withTurns t).reduce_files = b.reduce_files.withTurns t := by
  unfold Battle.reduce_files
  rw [wt_iter]
  exact foldl_withTurns _ t
    (fun b u => by
      simp only [wt_findDeployed, wt_armyOf, wt_setArmy]
      split <;> (try split) <;> (try split) <;> (try split) <;> rfl) _ b

theorem wt_update_status (b : Battle K) (t : ℕ) :
    (b.withTurns t).update_status = b.update_status.withTurns t := by
  unfold Battle.update_status
  rw [wt_iter]
  refine foldl_withTurns _ t (fun b u => ?_) _ b
  simp only [wt_findDeployed, wt_armyOf, wt_modifyUnit, wt_effmorale, wt_setArmy]
  split <;> (try split) <;> (try split) <;> (try split) <;> rfl

theorem wt_tidy (b : Battle K) (t : ℕ) : (b.withTurns t).tidy = b.tidy.withTurns t := by
  unfold Battle.tidy
  rw [wt_cmfp, wt_reduce_files, wt_update_status]

theorem wt_mth (T : Transcend K) (L : Landscape K) (dt : K) (b : Battle K) (t : ℕ)
    (u : ℕ) (target speed : K) :
    Battle.move_towards_haltingly T L dt (b.withTurns t) u target speed
      = (Battle.move_towards_haltingly T L dt b u target speed).withTurns t := by
  unfold Battle.move_towards_haltingly
  rw [wt_findDeployed]
  cases b.findDeployed u with
  | none => rfl
  | some p =>
    simp only [wt_armyOf, wt_desire, wt_modifyUnit, wt_findDeployed, wt_engaged]
    split <;> rfl

theorem wt_muts (T : Transcend K) (L : Landscape K) (dt : K) (b : Battle K) (t : ℕ)
    (u : ℕ) (target : K) :
    Battle.move_unit_towards_in_stance T L dt (b.withTurns t) u target
      = (Battle.move_unit_towards_in_stance T L dt b u target).withTurns t := by
  unfold Battle.move_unit_towards_in_stance
  rw [wt_findDeployed]
  cases b.findDeployed u with
  | none => rfl
  | some p =>
    simp only [wt_armyOf, wt_modifyUnit, wt_mth]
    split <;> rfl

theorem wt_move (T : Transcend K) (L : Landscape K) (dt : K) (b : Battle K) (t : ℕ) :
    Battle.move T L dt (b.withTurns t) = (Battle.move T L dt b).withTurns t := by
  unfold Battle.move
  rw [wt_move_order]
  refine foldl_withTurns _ t (fun b u => ?_) _ b
  simp only [wt_findDeployed, wt_armyOf, wt_modifyUnit, wt_muts]
  split <;> (try split) <;> (try split) <;> rfl

theorem wt_do_turn (T : Transcend K) (L : Landscape K) (dt : K) (b : Battle K) (t : ℕ) :
    Battle.do_turn T L dt (b.withTurns t) = (Battle.do_turn T L dt b).withTurns t := by
  unfold Battle.do_turn
  rw [wt_tidy, wt_fight, wt_move]

theorem withTurns_self (b : Battle K) : b.withTurns b.turns = b := by cases b; rfl

theorem turns_do_turn (T : Transcend K) (L : Landscape K) (dt : K) (b : Battle K) :
    (Battle.do_turn T L dt b).turns = b.turns := by
  conv_lhs => rw [show b = b.withTurns b.turns from (withTurns_self b).symm]
  rw [wt_do_turn]
  rfl

/-! ### The battle loop and the turn cap -/

theorem run_loop_zero (T : Transcend K) (L : Landscape K) (dt : K) (b : Battle K) :
    Battle.run_loop T L dt 0 b = b := rfl

theorem run_loop_succ (T : Transcend K) (L : Landscape K) (dt : K) (n : ℕ) (b : Battle K) :
    Battle.run_loop T L dt (n + 1) b
      = if b.is_battle_ended then b
        else Battle.run_loop T L dt n (Battle.do_turn T L dt { b with turns := b.turns + 1 }) := rfl

theorem is_battle_ended_eq (b : Battle K) :
    b.is_battle_ended
      = (b.army_1.defeated || b.army_2.defeated || b.iter_all_deployed.all (·.halted)
          || decide (1000 < b.turns)) := by
  unfold Battle.is_battle_ended
  split_ifs <;> simp_all

theorem not_cap_of_not_ended (b : Battle K) (h : b.is_battle_ended = false) :
    b.turns ≤ 1000 := by
  rw [is_battle_ended_eq] at h
  simp only [Bool.or_eq_false_iff, decide_eq_false_iff_not, not_lt] at h
  omega

theorem run_loop_turns_le (T : Transcend K) (L : Landscape K) (dt : K) :
    ∀ (fuel : ℕ) (b : Battle K), b.turns ≤ 1001 →
      (Battle.run_loop T L dt fuel b).turns ≤ 1001 := by
  intro fuel
  induction fuel with
  | zero => intro b h; exact h
  | succ n ih =>
    intro b h
    rw [run_loop_succ]
    cases he : b.is_battle_ended with
    | true => simpa using h
    | false =>
      simp only [Bool.false_eq_true, if_false]
      refine ih _ ?_
      rw [turns_do_turn]
      have := not_cap_of_not_ended b he
      simp only []
      omega

theorem run_loop_ended (T : Transcend K) (L : Landscape K) (dt : K) :
    ∀ (fuel : ℕ) (b : Battle K), 1001 < b.turns + fuel →
      (Battle.run_loop T L dt fuel b).is_battle_ended = true := by
  intro fuel
  induction fuel with
  | zero =>
    intro b h
    rw [run_loop_zero, is_battle_ended_eq]
    have h2 : 1000 < b.turns := by omega
    simp [h2]
  | succ n ih =>
    intro b h
    rw [run_loop_succ]
    cases he : b.is_battle_ended with
    | true => simpa using he
    | false =>
      simp only [Bool.false_eq_true, if_false]
      refine ih _ ?_
      rw [turns_do_turn]
      simp only []
      omega

/-! ### The turn-cap scenario runs exactly 1001 turns -/

theorem dB1_eq_val : dB1 = dB1val := by decide!

theorem dB1val_fix :
    Battle.do_turn unusedTranscend flatLandscape dtTiny dB1val = dB1val := by decide!

theorem dState_fix (t : ℕ) :
    Battle.do_turn unusedTranscend flatLandscape dtTiny (dState t) = dState t := by
  rw [show dState t = dB1val.withTurns t from rfl, wt_do_turn, dB1val_fix]

theorem dState_ended_top : (dState 1001).is_battle_ended = true := by decide!

theorem dB1val_not_defeated_1 : dB1val.army_1.defeated = false := by decide!

theorem dB1val_not_defeated_2 : dB1val.army_2.defeated = false := by decide!

theorem dB1val_not_halted : dB1val.iter_all_deployed.all (·.halted) = false := by decide!

theorem dState_ended_false (t : ℕ) (ht : t ≤ 1000) :
    (dState t).is_battle_ended = false := by
  rw [is_battle_ended_eq]
  rw [show (dState t).army_1 = dB1val.army_1 from rfl,
      show (dState t).army_2 = dB1val.army_2 from rfl,
      show (dState t).iter_all_deployed = dB1val.iter_all_deployed from rfl,
      show (dState t).turns = t from rfl,
      dB1val_not_defeated_1, dB1val_not_defeated_2, dB1val_not_halted]
  simp only [Bool.false_or, Bool.or_eq_false_iff, decide_eq_false_iff_not, not_lt]
  omega

theorem run_dState : ∀ (fuel t : ℕ), 1 ≤ t → t ≤ 1001 → 1002 ≤ t + fuel →
    Battle.run_loop unusedTranscend flatLandscape dtTiny fuel (dState t) = dState 1001 := by
  intro fuel
  induction fuel with
  | zero => intro t h1 h2 h3; omega
  | succ n ih =>
    intro t h1 h2 h3
    by_cases hc : t = 1001
    · subst hc
      rw [run_loop_succ, dState_ended_top]
      simp
    · have ht : t ≤ 1000 := by omega
      rw [run_loop_succ, dState_ended_false t ht]
      simp only [Bool.false_eq_true, if_false]
      rw [show ({ dState t with turns := (dState t).turns + 1 } : Battle ℚ) = dState (t + 1) from rfl]
      rw [dState_fix]
      exact ih (t + 1) (by omega) (by omega) (by omega)

theorem dB0_not_ended : dB0.is_battle_ended = false := by decide!

theorem run_from_start :
    Battle.do_battle unusedTranscend flatLandscape dtTiny dB0 = dState 1001 := by
  unfold Battle.do_battle
  rw [show (1002 : ℕ) = 1001 + 1 from rfl, run_loop_succ, dB0_not_ended]
  simp only [Bool.false_eq_true, if_false]
  rw [show ({ dB0 with turns := dB0.turns + 1 } : Battle ℚ)
    = { dB0 with turns := 1 } from rfl]
  rw [show Battle.do_turn unusedTranscend flatLandscape dtTiny { dB0 with turns := 1 }
    = dB1 from rfl]
  rw [dB1_eq_val, show dB1val = dState 1 from rfl]
  exact run_dState 1001 1 (by omega) (by omega) (by omega)

/-- C4 (amended): every battle run terminates; from a fresh battle
(turn counter 0) the loop always exits with the ended test true and the
turn counter at most 1001 (not 1000: the exit test `turns > 1000` is
checked after the increment, so a battle that never ends by defeat or
halting runs 1001 turns); and the ended test holds exactly when either
army has no deployed units, or every deployed unit is halted, or the
counter exceeds 1000. -/
theorem claim_C4_termination_cap_amended (T : Transcend K) (L : Landscape K) (dt : K)
    (b : Battle K) (h0 : b.turns = 0) :
    (Battle.do_battle T L dt b).is_battle_ended = true
    ∧ (Battle.do_battle T L dt b).turns ≤ 1001
    ∧ ∀ b2 : Battle K, b2.is_battle_ended
        = (b2.army_1.defeated || b2.army_2.defeated
            || b2.iter_all_deployed.all (·.halted) || decide (1000 < b2.turns)) := by
  refine ⟨?_, ?_, fun b2 => is_battle_ended_eq b2⟩
  · exact run_loop_ended T L dt 1002 b (by omega)
  · exact run_loop_turns_le T L dt 1002 b (by omega)

theorem claim_C4_witness :
    (Battle.do_battle unusedTranscend flatLandscape dtTiny wB).is_battle_ended = true
    ∧ (Battle.do_battle unusedTranscend flatLandscape dtTiny wB).turns ≤ 1001
    ∧ ∀ b2 : Battle ℚ, b2.is_battle_ended
        = (b2.army_1.defeated || b2.army_2.defeated
            || b2.iter_all_deployed.all (·.halted) || decide (1000 < b2.turns)) :=
  claim_C4_termination_cap_amended unusedTranscend flatLandscape dtTiny wB rfl

/-- C4 counterexample: the turn counter does exceed 1000.  In the
turn-cap scenario (two units frozen far apart by rounding of a tiny tick)
the run executes 1001 turns and ends with the counter at 1001. -/
theorem claim_C4_counterexample :
    1000 < (Battle.do_battle unusedTranscend flatLandscape dtTiny dB0).turns := by
  rw [run_from_start]
  decide

/-! ### Outcome decision (claim C1) -/

theorem defeated_iff_deployed_nil (a : Army K) :
    a.defeated = true ↔ a.deployed_units = [] := by
  unfold Army.defeated Army.deployed_units
  simp

/-- C1: `Battle.decide_winner` returns both-lost iff both armies have no
deployed units; win-1 iff army 1 has deployed units while army 2 has none;
win-2 iff army 2 has deployed units while army 1 has none; and stalemate
otherwise (both armies still have deployed units). -/
theorem claim_C1_decide_winner_outcomes (b : Battle K) :
    (b.decide_winner = BattleOutcome.BOTH_LOST
      ↔ b.army_1.deployed_units = [] ∧ b.army_2.deployed_units = []) ∧
    (b.decide_winner = BattleOutcome.WIN_1
      ↔ b.army_1.deployed_units ≠ [] ∧ b.army_2.deployed_units = []) ∧
    (b.decide_winner = BattleOutcome.WIN_2
      ↔ b.army_2.deployed_units ≠ [] ∧ b.army_1.deployed_units = []) ∧
    (b.decide_winner = BattleOutcome.STALEMATE
      ↔ b.army_1.deployed_units ≠ [] ∧ b.army_2.deployed_units ≠ []) := by
  have h1 := defeated_iff_deployed_nil b.army_1
  have h2 := defeated_iff_deployed_nil b.army_2
  unfold Battle.decide_winner
  cases hd1 : b.army_1.defeated <;> cases hd2 : b.army_2.defeated <;>
    rw [hd1] at h1 <;> rw [hd2] at h2 <;>
    simp_all

/-! ### Movement confirmation (claim C8) -/

/-- C8: `Unit.confirm_move` agrees, on every input, with the
clause-by-clause description `confirm_move_spec` taken from the
specification: accept and clear `halted` within the minimum-deploy
distance of home; roll back and halt when the move raises the lag from
below 1 to 1 or more; otherwise scale the gradient by `1/(1 - new_lag)`
(new lag capped just below 1) exactly when the lag increased, roll back
and halt when the scaled gradient exceeds the halt threshold, and
otherwise keep the move, clearing `halted` only if the position actually
changed. -/
theorem claim_C8_confirm_move_spec (u : Unit K) (gradient old_pos old_lag new_lag : K) :
    u.confirm_move gradient old_pos old_lag new_lag
      = confirm_move_spec u gradient old_pos old_lag new_lag := by
  unfold Unit.confirm_move confirm_move_spec
  simp only [mul_ite, mul_one_div, mul_one]

/-! ### Position clamping and rounding (claim C6) -/

theorem round3_int_div (m : ℤ) : round3 ((m : K) / 1000) = (m : K) / 1000 := by
  unfold round3
  rw [show (1000 : K) * ((m : K) / 1000) = (m : K) by field_simp]
  rw [round_intCast]

theorem round3_idem (x : K) : round3 (round3 x) = round3 x := round3_int_div _

theorem round3_mono {x y : K} (h : x ≤ y) : round3 x ≤ round3 y := by
  unfold round3
  have hr : round (1000 * x) ≤ round (1000 * y) := by
    rw [round_eq, round_eq]
    exact Int.floor_mono (by linarith)
  have hc : ((round (1000 * x) : ℤ) : K) ≤ ((round (1000 * y) : ℤ) : K) :=
    Int.cast_le.mpr hr
  linarith

theorem grid_cast (a : K) (h : round3 a = a) :
    ((round (1000 * a) : ℤ) : K) = 1000 * a := by
  unfold round3 at h
  field_simp at h
  linarith

theorem round3_of_grid_le {a x : K} (hg : round3 a = a) (h : x ≤ a) : round3 x ≤ a := by
  calc round3 x ≤ round3 a := round3_mono h
    _ = a := hg

theorem round3_of_grid_ge {a x : K} (hg : round3 a = a) (h : a ≤ x) : a ≤ round3 x := by
  calc a = round3 a := hg.symm
    _ ≤ round3 x := round3_mono h

theorem neg_grid (a : K) (hg : round3 a = a) : round3 (-a) = -a := by
  have h := grid_cast a hg
  unfold round3
  rw [show (1000 : K) * -a = ((-(round (1000 * a)) : ℤ) : K) by push_cast; linarith]
  rw [round_intCast]
  push_cast
  linarith

theorem cap_position_rounded (u : Unit K) :
    round3 u.cap_position.position = u.cap_position.position := by
  unfold Unit.cap_position
  exact round3_idem _

theorem cap_position_bounds (u : Unit K) (hg : round3 |u.init_pos| = |u.init_pos|) :
    -|u.init_pos| ≤ u.cap_position.position ∧ u.cap_position.position ≤ |u.init_pos| := by
  unfold Unit.cap_position
  constructor
  · refine round3_of_grid_ge (neg_grid _ hg) ?_
    exact le_max_left _ _
  · refine round3_of_grid_le hg ?_
    exact max_le (le_trans (neg_nonpos.mpr (abs_nonneg _)) (abs_nonneg _)) (min_le_right _ _)

theorem move_to_position (u : Unit K) (p : K) :
    u.move_to p = Unit.cap_position { u with position := p } := rfl

theorem move_by_position (u : Unit K) (d : K) :
    u.move_by d = Unit.cap_position { u with position := u.position + d } := rfl

theorem cap_init_pos (u : Unit K) : u.cap_position.init_pos = u.init_pos := rfl

/-- After `move_towards`, `deploy_close_to` and
`move_safely_away_from_pos` the unit either did not move at all or its
state is a `cap_position` result. -/
theorem derived_moves_cap (u : Unit K) :
    (∀ dt target speed : K, u.move_towards dt target speed = u
      ∨ ∃ p, u.move_towards dt target speed = Unit.cap_position { u with position := p }) ∧
    (∀ (file : ℤ) (ref_pos : K), ∃ u1 : Unit K, ∃ p : K, u1.init_pos = u.init_pos
      ∧ u.deploy_close_to file ref_pos = Unit.cap_position { u1 with position := p }) ∧
    (∀ ref_pos : K, u.move_safely_away_from_pos ref_pos = u
      ∨ ∃ p, u.move_safely_away_from_pos ref_pos = Unit.cap_position { u with position := p }) := by
  refine ⟨fun dt target speed => ?_, fun file ref_pos => ?_, fun ref_pos => ?_⟩
  · unfold Unit.move_towards
    split_ifs <;> [right; right; left] <;> first
      | rfl
      | exact ⟨_, rfl⟩
  · unfold Unit.deploy_close_to
    exact ⟨{ u with file := file }, _, rfl, rfl⟩
  · unfold Unit.move_safely_away_from_pos
    split_ifs <;> [right; right; left] <;> first
      | rfl
      | exact ⟨_, rfl⟩

theorem set_up_position (u : Unit K) (ip : K) :
    (u.set_up ip).position = ip + EPS * (if ip < 0 then 1 else -1) := by
  unfold Unit.set_up Unit.moving_to_pos
  by_cases h : ip < 0 <;> simp [h]

theorem grid_add_half (a b : K) (ha : round3 a = a) (hb : round3 b = b)
    (h : 1000 * b = 1000 * a + 1 / 2) : False := by
  have h1 := grid_cast a ha
  have h2 := grid_cast b hb
  set r1 := round (1000 * a)
  set r2 := round (1000 * b)
  have hc : ((2 * (r2 - r1) : ℤ) : K) = 1 := by push_cast; linarith
  have hz : (2 * (r2 - r1) : ℤ) = 1 := by exact_mod_cast hc
  omega

/-- C6 (amended): the clamped movement primitives `move_by` and `move_to`
always leave the position equal to its own 3-decimal rounding, and leave
it inside `[-|init_pos|, |init_pos|]` provided `|init_pos|` itself lies on
the 3-decimal grid; the operations built on them (`move_towards`,
`deploy_close_to`, `move_safely_away_from_pos`, and the pushback moves,
which call `move_by`) therefore do the same whenever they move the unit at
all; `set_up` instead places the unit strictly inside the bounds (for
home distance at least 1) but exactly `EPS = 0.0005` off the 3-decimal
grid; and `confirm_move` either keeps the position or restores the
supplied pre-move position. -/
theorem claim_C6_position_invariant_amended (u : Unit K) :
    (∀ d : K, round3 (u.move_by d).position = (u.move_by d).position
      ∧ (round3 |u.init_pos| = |u.init_pos| →
          -|u.init_pos| ≤ (u.move_by d).position ∧ (u.move_by d).position ≤ |u.init_pos|)) ∧
    (∀ p : K, round3 (u.move_to p).position = (u.move_to p).position
      ∧ (round3 |u.init_pos| = |u.init_pos| →
          -|u.init_pos| ≤ (u.move_to p).position ∧ (u.move_to p).position ≤ |u.init_pos|)) ∧
    (∀ ip : K, 1 ≤ |ip| → round3 ip = ip →
      -|ip| < (u.set_up ip).position ∧ (u.set_up ip).position < |ip|
        ∧ round3 (u.set_up ip).position ≠ (u.set_up ip).position) ∧
    (∀ gradient old_pos old_lag new_lag : K,
      (u.confirm_move gradient old_pos old_lag new_lag).position = u.position
        ∨ (u.confirm_move gradient old_pos old_lag new_lag).position = old_pos) := by
  refine ⟨fun d => ⟨?_, fun hg => ?_⟩, fun p => ⟨?_, fun hg => ?_⟩,
    fun ip h1 hg => ?_, fun gradient old_pos old_lag new_lag => ?_⟩
  · exact cap_position_rounded _
  · exact cap_position_bounds { u with position := u.position + d } hg
  · exact cap_position_rounded _
  · exact cap_position_bounds { u with position := p } hg
  · have hpos := set_up_position u ip
    by_cases hip : ip < 0
    · rw [if_pos hip] at hpos
      have ha : |ip| = -ip := abs_of_neg hip
      have hle : ip ≤ -1 := by rw [ha] at h1; linarith
      refine ⟨?_, ?_, ?_⟩
      · rw [hpos, ha]; unfold EPS; linarith
      · rw [hpos, ha]; unfold EPS; linarith
      · rw [hpos]
        intro hc
        refine grid_add_half ip (ip + EPS * 1) hg hc ?_
        unfold EPS; ring
    · rw [if_neg hip] at hpos
      have ha : |ip| = ip := abs_of_nonneg (not_lt.mp hip)
      have hle : 1 ≤ ip := by rw [ha] at h1; exact h1
      refine ⟨?_, ?_, ?_⟩
      · rw [hpos, ha]; unfold EPS; linarith
      · rw [hpos, ha]; unfold EPS; linarith
      · rw [hpos]
        intro hc
        refine grid_add_half (ip + EPS * -1) ip hc hg ?_
        unfold EPS; ring
  · unfold Unit.confirm_move
    dsimp only
    split_ifs <;> first | exact Or.inl rfl | exact Or.inr rfl

/-- C6 counterexample: the claim fails as stated.  After `set_up (-5)` the
position is `-4.9995`, which is not equal to its 3-decimal rounding; and
for a unit whose home distance is `4.9997` (not a multiple of `0.001`),
`move_to 5` clamps to `4.9997` and then rounds to `5.0`, outside
`[-|init_pos|, |init_pos|]`. -/
theorem claim_C6_counterexample :
    (uSetUp.position = -(9999 / 2000) ∧ round3 uSetUp.position ≠ uSetUp.position) ∧
    ((uOffGrid.move_to 5).position = 5
      ∧ |(uOffGrid.move_to 5).init_pos| < (uOffGrid.move_to 5).position) := by decide!

/-! ### Matching: best-remaining selection (claim C2) -/

/-- C2: in phase 3 of the matching, whenever the flattened candidate pool
selects a pair (as the source's `max` does), the chosen (attacker, target)
pair is a member of the pool and is maximal under the exact
lexicographic key of `assign_best_remaining` — (1) frontal-and-melee,
(2) melee with the flank penalty and epsilon tolerance, (3) frontal,
(4) the target is already assigned to attack this attacker, (5) the
target is not yet claimed, (6) negative distance, (7) negative attack
range, (8) absolute attacker file then absolute target file, (9) raw
attacker file, raw target file, raw attacker position — and the result
records the pair as the attacker's assignment and drops the attacker from
the pool. -/
theorem claim_C2_best_remaining_max (pots : List (Unit K × List (Unit K)))
    (asg : List (Unit K × Unit K)) (unit target : Unit K)
    (hsel : List.argmax (fun q : Unit K × Unit K => fp_sort_key asg q.1 q.2)
        (pots.flatMap fun p => p.2.map fun t => (p.1, t)) = some (unit, target)) :
    (unit, target) ∈ (pots.flatMap fun p => p.2.map fun t => (p.1, t))
    ∧ (∀ q ∈ (pots.flatMap fun p => p.2.map fun t => (p.1, t)),
        fp_sort_key asg q.1 q.2 ≤ fp_sort_key asg unit target)
    ∧ FightPairsDefs.assign_best_remaining pots asg
        = (pots.eraseP (fun q => q.1.uid == unit.uid), asg ++ [(unit, target)]) := by
  refine ⟨List.argmax_mem hsel, fun q hq => List.le_of_mem_argmax hq hsel, ?_⟩
  simp only [FightPairsDefs.assign_best_remaining]
  rw [hsel]

theorem claim_C2_witness :
    ((cU1, cV) ∈ (([(cU1, [cV]), (cU2, [cV])] : List (Unit ℚ × List (Unit ℚ))).flatMap
        fun p => p.2.map fun t => (p.1, t))
    ∧ (∀ q ∈ (([(cU1, [cV]), (cU2, [cV])] : List (Unit ℚ × List (Unit ℚ))).flatMap
        fun p => p.2.map fun t => (p.1, t)),
        fp_sort_key [] q.1 q.2 ≤ fp_sort_key [] cU1 cV)
    ∧ FightPairsDefs.assign_best_remaining [(cU1, [cV]), (cU2, [cV])] []
        = ([(cU1, [cV]), (cU2, [cV])].eraseP (fun q => q.1.uid == cU1.uid),
           [] ++ [(cU1, cV)])) :=
  claim_C2_best_remaining_max [(cU1, [cV]), (cU2, [cV])] [] cU1 cV (by decide!)

/-! ### Matching: determinism and idempotence (claim C7) -/

/-- C7: `FightPairs` matching is a pure function of the underlying army
state — two `FightPairs` objects over equal armies produce identical
two-way pair lists, one-way pair lists and engaged sets; and running
`assign_all` again on the result (which begins with `reset()`) reproduces
the same state exactly. -/
theorem claim_C7_fightpairs_deterministic (fp fp2 : FightPairs K)
    (h1 : fp.army_1 = fp2.army_1) (h2 : fp.army_2 = fp2.army_2) :
    fp.assign_all.two_way_pairs = fp2.assign_all.two_way_pairs
    ∧ fp.assign_all.one_way_pairs = fp2.assign_all.one_way_pairs
    ∧ fp.assign_all.all_engaged = fp2.assign_all.all_engaged
    ∧ fp.assign_all.assign_all = fp.assign_all := by
  cases fp
  cases fp2
  simp only at h1 h2
  subst h1
  subst h2
  exact ⟨rfl, rfl, rfl, rfl⟩

theorem claim_C7_witness :
    (FightPairs.make cArmy1 cArmy2).assign_all.two_way_pairs
        = (FightPairs.make cArmy1 cArmy2).assign_all.two_way_pairs
    ∧ (FightPairs.make cArmy1 cArmy2).assign_all.one_way_pairs
        = (FightPairs.make cArmy1 cArmy2).assign_all.one_way_pairs
    ∧ (FightPairs.make cArmy1 cArmy2).assign_all.all_engaged
        = (FightPairs.make cArmy1 cArmy2).assign_all.all_engaged
    ∧ (FightPairs.make cArmy1 cArmy2).assign_all.assign_all
        = (FightPairs.make cArmy1 cArmy2).assign_all :=
  claim_C7_fightpairs_deterministic (FightPairs.make cArmy1 cArmy2)
    (FightPairs.make cArmy1 cArmy2) rfl rfl

/-! ### Matching: pair structure (claim C3) -/

/-- C3 counterexample: the claim fails as stated.  In the two-attackers
scenario, `assign_all` produces the two-way pair (cU1, cV) and the one-way
pair (cU2, cV): the defender cV (uid 3) appears in two pairs within a
single fight phase. -/
theorem claim_C3_counterexample :
    cFP.two_way_pairs.map (fun p => (p.1.uid, p.2.uid)) = [(1, 3)]
    ∧ cFP.one_way_pairs.map (fun p => (p.1.uid, p.2.uid)) = [(2, 3)]
    ∧ cPairUids.count 3 = 2 := by decide!

theorem claim_C6_witness :
    (round3 (uW.move_by 1).position = (uW.move_by 1).position
      ∧ (-|uW.init_pos| ≤ (uW.move_by 1).position ∧ (uW.move_by 1).position ≤ |uW.init_pos|))
    ∧ (-|(-5 : ℚ)| < (uW.set_up (-5)).position ∧ (uW.set_up (-5)).position < |(-5 : ℚ)|
        ∧ round3 (uW.set_up (-5)).position ≠ (uW.set_up (-5)).position) := by
  have h := claim_C6_position_invariant_amended (K := ℚ) uW
  exact ⟨⟨(h.1 1).1, (h.1 1).2 (by decide!)⟩, h.2.2.1 (-5) (by decide!) (by decide!)⟩

theorem alookup_of_mem {asg : List (Unit K × Unit K)} {p : Unit K × Unit K}
    (hnd : (asg.map fun q => q.1.uid).Nodup) (hp : p ∈ asg) :
    alookup asg p.1 = some p.2 := by
  induction asg with
  | nil => cases hp
  | cons q rest ih =>
    rw [List.map_cons, List.nodup_cons] at hnd
    cases hp with
    | head => unfold alookup; simp
    | tail _ hp =>
      have hb : (q.1.uid == p.1.uid) = false := by
        simp only [beq_eq_false_iff_ne, ne_eq]
        intro he
        exact hnd.1 (he ▸ List.mem_map.mpr ⟨p, hp, rfl⟩)
      unfold alookup at ih ⊢
      rw [List.find?_cons, hb]
      exact ih hnd.2 hp

theorem dictGet_uidAssign (asg : List (Unit K × Unit K)) (u : Unit K) :
    dictGet (uidAssign asg) u.uid = (alookup asg u).map Unit.uid := by
  unfold dictGet uidAssign alookup
  rw [List.find?_map]
  rw [Option.map_map, Option.map_map]
  rfl

theorem ids_eraseP_memdecomp {l : List (Unit K)} {x : ℕ}
    (hx : x ∈ l.map Unit.uid) :
    ∃ w l₁ l₂, w.uid = x ∧ (∀ b ∈ l₁, b.uid ≠ x) ∧ l = l₁ ++ w :: l₂
      ∧ l.eraseP (fun u => u.uid == x) = l₁ ++ l₂ := by
  obtain ⟨w, hw, hwx⟩ := List.mem_map.mp hx
  obtain ⟨a, l₁, l₂, h₁, h₂, h₃, h₄⟩ :=
    List.exists_of_eraseP (p := fun u : Unit K => u.uid == x) hw (by simp [hwx])
  exact ⟨a, l₁, l₂, by simpa using h₂, fun b hb => by simpa using h₁ b hb, h₃, h₄⟩

theorem ids_eraseP_multiset {l : List (Unit K)} {x : ℕ}
    (hx : x ∈ l.map Unit.uid) :
    (l.map Unit.uid : Multiset ℕ)
      = x ::ₘ ((l.eraseP (fun u => u.uid == x)).map Unit.uid : Multiset ℕ) := by
  obtain ⟨w, l₁, l₂, hw, _, h3, h4⟩ := ids_eraseP_memdecomp hx
  subst h3
  rw [h4, Multiset.cons_coe]
  refine Multiset.coe_eq_coe.mpr ?_
  rw [← hw]
  simp only [List.map_append, List.map_cons]
  exact List.perm_middle

theorem ids_eraseP_mem {l : List (Unit K)} {x : ℕ} (hnd : (l.map Unit.uid).Nodup)
    (hx : x ∈ l.map Unit.uid) (y : ℕ) :
    y ∈ (l.eraseP (fun u => u.uid == x)).map Unit.uid
      ↔ (y ∈ l.map Unit.uid ∧ y ≠ x) := by
  have hms := ids_eraseP_multiset (l := l) hx
  constructor
  · intro hy
    have hyml : y ∈ (l.map Unit.uid : Multiset ℕ) := by
      rw [hms]
      exact Multiset.mem_cons_of_mem (by exact_mod_cast hy)
    refine ⟨by exact_mod_cast hyml, ?_⟩
    rintro rfl
    have hnodup : (l.map Unit.uid : Multiset ℕ).Nodup := by exact_mod_cast hnd
    rw [hms] at hnodup
    exact (Multiset.nodup_cons.mp hnodup).1 (by exact_mod_cast hy)
  · rintro ⟨hy, hne⟩
    have hm : y ∈ (l.map Unit.uid : Multiset ℕ) := by exact_mod_cast hy
    rw [hms] at hm
    rcases Multiset.mem_cons.mp hm with rfl | h
    · exact absurd rfl hne
    · exact_mod_cast h

theorem match_aux_spec (asg : List (Unit K × Unit K))
    (hknd : (asg.map fun p => p.1.uid).Nodup)
    (hself : ∀ p ∈ asg, p.1.uid ≠ p.2.uid) :
    ∀ (fuel : ℕ) (remaining : List (Unit K)) (tw ow : List (Unit K × Unit K)) (eng : List ℕ),
      remaining.length ≤ fuel →
      (∀ u ∈ remaining, ∃ p ∈ asg, p.1 = u) →
      (remaining.map Unit.uid).Nodup →
      (∀ x y : ℕ, dictGet (uidAssign asg) x = some y →
        dictGet (uidAssign asg) y = some x →
        (x ∈ remaining.map Unit.uid ↔ y ∈ remaining.map Unit.uid)) →
      (∀ p ∈ (FightPairsDefs.match_aux asg fuel remaining (tw, ow, eng)).1,
          p ∈ tw ∨ (dictGet (uidAssign asg) p.1.uid = some p.2.uid
            ∧ dictGet (uidAssign asg) p.2.uid = some p.1.uid))
      ∧ (∀ p ∈ (FightPairsDefs.match_aux asg fuel remaining (tw, ow, eng)).2.1,
          p ∈ ow ∨ (dictGet (uidAssign asg) p.1.uid = some p.2.uid
            ∧ dictGet (uidAssign asg) p.2.uid ≠ some p.1.uid))
      ∧ (((FightPairsDefs.match_aux asg fuel remaining (tw, ow, eng)).1.flatMap
            fun p => [p.1.uid, p.2.uid])
          ++ ((FightPairsDefs.match_aux asg fuel remaining (tw, ow, eng)).2.1.map
            fun p => p.1.uid) : Multiset ℕ)
        = ((tw.flatMap fun p => [p.1.uid, p.2.uid]) ++ ow.map (fun p => p.1.uid)
            : Multiset ℕ) + (remaining.map Unit.uid : Multiset ℕ) := by
  intro fuel
  induction fuel with
  | zero =>
    intro remaining tw ow eng hlen hmem hnd hclo
    have hre : remaining = [] := List.eq_nil_of_length_eq_zero (Nat.le_zero.mp hlen)
    subst hre
    refine ⟨fun p hp => Or.inl hp, fun p hp => Or.inl hp, ?_⟩
    simp [FightPairsDefs.match_aux]
  | succ n ih =>
    intro remaining tw ow eng hlen hmem hnd hclo
    cases remaining with
    | nil =>
      refine ⟨fun p hp => Or.inl hp, fun p hp => Or.inl hp, ?_⟩
      simp [FightPairsDefs.match_aux]
    | cons A rest =>
      obtain ⟨p, hpmem, hpA⟩ := hmem A (List.mem_cons_self _ _)
      have hA : alookup asg A = some p.2 := by
        rw [← hpA]; exact alookup_of_mem hknd hpmem
      have hGA : dictGet (uidAssign asg) A.uid = some p.2.uid := by
        rw [show A.uid = p.1.uid from by rw [hpA], dictGet_uidAssign,
          show (p.1 : Unit K) = A from hpA, hA]
        rfl
      have hABne : A.uid ≠ p.2.uid := by
        rw [show A.uid = p.1.uid from by rw [hpA]]
        exact hself p hpmem
      have hstep_eq : FightPairsDefs.match_aux asg (n + 1) (A :: rest) (tw, ow, eng)
          = if (alookup asg p.2).any (fun x => x.uid == A.uid)
            then FightPairsDefs.match_aux asg n (rest.eraseP fun x => x.uid == p.2.uid)
                  (tw ++ [(A, p.2)], ow, eng ++ [A.uid, p.2.uid])
            else FightPairsDefs.match_aux asg n rest
                  (tw, ow ++ [(A, p.2)], eng ++ [A.uid, p.2.uid]) := by
        simp only [FightPairsDefs.match_aux, hA]
      rw [List.length_cons, Nat.succ_le_succ_iff] at hlen
      rw [List.map_cons, List.nodup_cons] at hnd
      rw [hstep_eq]
      cases hmut : (alookup asg p.2).any (fun x => x.uid == A.uid) with
      | true =>
        simp only [if_pos]
        obtain ⟨C, hC, hCu⟩ : ∃ C, alookup asg p.2 = some C ∧ C.uid = A.uid := by
          cases hC0 : alookup asg p.2 with
          | none => rw [hC0] at hmut; simp at hmut
          | some C =>
            rw [hC0] at hmut
            simp only [Option.any_some, beq_iff_eq] at hmut
            exact ⟨C, rfl, hmut⟩
        have hGB : dictGet (uidAssign asg) p.2.uid = some A.uid := by
          rw [dictGet_uidAssign, hC]
          simp [hCu]
        have hBrest : p.2.uid ∈ rest.map Unit.uid := by
          have h1 : A.uid ∈ (A :: rest).map Unit.uid := by simp
          have h2 := (hclo A.uid p.2.uid hGA hGB).mp h1
          simp only [List.map_cons, List.mem_cons] at h2
          rcases h2 with h2 | h2
          · exact absurd h2.symm hABne
          · exact h2
        have herl : (rest.eraseP fun x => x.uid == p.2.uid).length ≤ n := by
          have := (List.eraseP_sublist (p := fun x : Unit K => x.uid == p.2.uid) rest).length_le
          omega
        have hermem : ∀ u ∈ rest.eraseP fun x => x.uid == p.2.uid, ∃ q ∈ asg, q.1 = u :=
          fun u hu => hmem u (List.mem_cons_of_mem _
            (List.Sublist.mem hu (List.eraseP_sublist rest)))
        have hernd : ((rest.eraseP fun x => x.uid == p.2.uid).map Unit.uid).Nodup :=
          List.Nodup.sublist (List.Sublist.map _ (List.eraseP_sublist rest)) hnd.2
        have hermemiff := ids_eraseP_mem hnd.2 hBrest
        have herclo : ∀ x y : ℕ, dictGet (uidAssign asg) x = some y →
            dictGet (uidAssign asg) y = some x →
            (x ∈ (rest.eraseP fun x => x.uid == p.2.uid).map Unit.uid
              ↔ y ∈ (rest.eraseP fun x => x.uid == p.2.uid).map Unit.uid) := by
          intro x y hx hy
          rw [hermemiff x, hermemiff y]
          by_cases hxA : x = A.uid
          · subst hxA
            have hyB : y = p.2.uid := by
              rw [hGA] at hx; exact (Option.some_injective _ hx).symm
            subst hyB
            constructor
            · rintro ⟨hxr, _⟩
              exact absurd hxr hnd.1
            · rintro ⟨_, hne⟩
              exact absurd rfl hne
          · by_cases hxB : x = p.2.uid
            · subst hxB
              have hyA : y = A.uid := by
                rw [hGB] at hx; exact (Option.some_injective _ hx).symm
              subst hyA
              constructor
              · rintro ⟨_, hne⟩
                exact absurd rfl hne
              · rintro ⟨hyr, _⟩
                exact absurd hyr hnd.1
            · have hyA : y ≠ A.uid := by
                rintro rfl
                rw [hGA] at hy
                exact hxB (Option.some_injective _ hy).symm
              have hyB : y ≠ p.2.uid := by
                rintro rfl
                rw [hGB] at hy
                exact hxA (Option.some_injective _ hy).symm
              have hbase := hclo x y hx hy
              simp only [List.map_cons, List.mem_cons] at hbase
              constructor
              · rintro ⟨hxr, _⟩
                refine ⟨?_, hyB⟩
                have := hbase.mp (Or.inr hxr)
                rcases this with h | h
                · exact absurd h hyA
                · exact h
              · rintro ⟨hyr, _⟩
                refine ⟨?_, hxB⟩
                have := hbase.mpr (Or.inr hyr)
                rcases this with h | h
                · exact absurd h hxA
                · exact h
        have hstep := ih (rest.eraseP fun x => x.uid == p.2.uid)
          (tw ++ [(A, p.2)]) ow (eng ++ [A.uid, p.2.uid]) herl hermem hernd herclo
        refine ⟨?_, hstep.2.1, ?_⟩
        · intro q hq
          rcases hstep.1 q hq with hq2 | hq2
          · rcases List.mem_append.mp hq2 with hq3 | hq3
            · exact Or.inl hq3
            · have : q = (A, p.2) := by simpa using hq3
              subst this
              exact Or.inr ⟨hGA, hGB⟩
          · exact Or.inr hq2
        · rw [hstep.2.2]
          simp only [List.flatMap_append, List.flatMap_cons, List.flatMap_nil,
            List.map_append, List.map_cons, List.map_nil, List.append_nil,
            ← Multiset.coe_add, ← Multiset.cons_coe]
          rw [ids_eraseP_multiset hBrest]
          simp only [← Multiset.singleton_add]
          abel
      | false =>
        simp only [Bool.false_eq_true, if_false]
        have hGBn : dictGet (uidAssign asg) p.2.uid ≠ some A.uid := by
          rw [dictGet_uidAssign]
          cases hC0 : alookup asg p.2 with
          | none => simp
          | some C =>
            rw [hC0] at hmut
            simp only [Option.any_some] at hmut
            show ¬(some C.uid = some A.uid)
            intro hcon
            have : C.uid = A.uid := Option.some_injective _ hcon
            rw [this] at hmut
            simp at hmut
        have herclo : ∀ x y : ℕ, dictGet (uidAssign asg) x = some y →
            dictGet (uidAssign asg) y = some x →
            (x ∈ rest.map Unit.uid ↔ y ∈ rest.map Unit.uid) := by
          intro x y hx hy
          have hxA : x ≠ A.uid := by
            rintro rfl
            rw [hGA] at hx
            have : y = p.2.uid := (Option.some_injective _ hx).symm
            subst this
            exact hGBn hy
          have hyA : y ≠ A.uid := by
            rintro rfl
            rw [hGA] at hy
            have : x = p.2.uid := (Option.some_injective _ hy).symm
            subst this
            exact hGBn hx
          have hbase := hclo x y hx hy
          simp only [List.map_cons, List.mem_cons] at hbase
          constructor
          · intro hxr
            rcases hbase.mp (Or.inr hxr) with h | h
            · exact absurd h hyA
            · exact h
          · intro hyr
            rcases hbase.mpr (Or.inr hyr) with h | h
            · exact absurd h hxA
            · exact h
        have hstep := ih rest tw (ow ++ [(A, p.2)]) (eng ++ [A.uid, p.2.uid]) hlen
          (fun u hu => hmem u (List.mem_cons_of_mem _ hu)) hnd.2 herclo
        refine ⟨hstep.1, ?_, ?_⟩
        · intro q hq
          rcases hstep.2.1 q hq with hq2 | hq2
          · rcases List.mem_append.mp hq2 with hq3 | hq3
            · exact Or.inl hq3
            · have : q = (A, p.2) := by simpa using hq3
              subst this
              exact Or.inr ⟨hGA, hGBn⟩
          · exact Or.inr hq2
        · rw [hstep.2.2]
          simp only [List.flatMap_append, List.flatMap_cons, List.flatMap_nil,
            List.map_append, List.map_cons, List.map_nil, List.append_nil,
            ← Multiset.coe_add, ← Multiset.cons_coe]
          simp only [← Multiset.singleton_add]
          abel

theorem dictGet_mem_values {κ : Type} [BEq κ] {l : List (κ × α)} {k : κ} {v : α}
    (h : dictGet l k = some v) : v ∈ l.map (·.2) := by
  unfold dictGet at h
  cases hf : l.find? fun p => p.1 == k with
  | none => rw [hf] at h; cases h
  | some q =>
    rw [hf] at h
    have hq : q ∈ l := List.mem_of_find?_eq_some hf
    have : v = q.2 := by cases h; rfl
    exact this ▸ List.mem_map.mpr ⟨q, hq, rfl⟩

theorem get_valid_targets_mem {file : ℤ} {u : Unit K} {op : Army K} :
    ∀ t ∈ FightPairsDefs.get_valid_targets file u op, t ∈ op.deployed_units := by
  intro t ht
  unfold FightPairsDefs.get_valid_targets at ht
  split at ht
  · rename_i target hf
    split_ifs at ht with hr
    · have : t = target := by simpa using ht
      exact this ▸ dictGet_mem_values hf
    · cases ht
  · cases ht

theorem add_single_potentials_mem {file : ℤ} {u : Unit K} {op : Army K} :
    ∀ t ∈ FightPairsDefs.add_single_potentials file u op, t ∈ op.deployed_units := by
  intro t ht
  unfold FightPairsDefs.add_single_potentials at ht
  rcases List.mem_append.mp ht with h | h
  · rcases List.mem_append.mp h with h | h
    · exact get_valid_targets_mem t h
    · exact get_valid_targets_mem t h
  · exact get_valid_targets_mem t h

theorem pots_part_keys_sublist (fus : List (ℤ × Unit K)) (F : ℤ → Unit K → List (Unit K)) :
    List.Sublist
      ((fus.filterMap fun p =>
        let ts := F p.1 p.2
        if ts.isEmpty then none else some (p.2, ts)).map fun e => e.1.uid)
      (fus.map fun p => p.2.uid) := by
  induction fus with
  | nil => exact List.Sublist.refl _
  | cons p rest ih =>
    cases h : (F p.1 p.2).isEmpty with
    | true =>
      simp only [List.filterMap_cons, h, if_true, List.map_cons]
      exact List.Sublist.cons _ ih
    | false =>
      simp only [List.filterMap_cons, h, Bool.false_eq_true, if_false, List.map_cons]
      exact List.Sublist.cons₂ _ ih

theorem pots_part_mem {fus : List (ℤ × Unit K)} {F : ℤ → Unit K → List (Unit K)}
    {e : Unit K × List (Unit K)}
    (he : e ∈ fus.filterMap fun p =>
      let ts := F p.1 p.2
      if ts.isEmpty then none else some (p.2, ts)) :
    ∃ p ∈ fus, e.1 = p.2 ∧ e.2 = F p.1 p.2 := by
  obtain ⟨p, hp, hsome⟩ := List.mem_filterMap.mp he
  refine ⟨p, hp, ?_⟩
  cases h : (F p.1 p.2).isEmpty with
  | true => simp only [h, if_true] at hsome; cases hsome
  | false =>
    simp only [h, Bool.false_eq_true, if_false] at hsome
    cases hsome
    exact ⟨rfl, rfl⟩

theorem add_all_keys_sublist (a1 a2 : Army K) :
    List.Sublist ((FightPairsDefs.add_all_potentials a1 a2).map fun e => e.1.uid)
      ((a1.deployed_units ++ a2.deployed_units).map Unit.uid) := by
  unfold FightPairsDefs.add_all_potentials
  rw [List.map_append, List.map_append]
  refine List.Sublist.append ?_ ?_
  · have := pots_part_keys_sublist a1.file_units
      (fun f u => FightPairsDefs.add_single_potentials f u a2)
    simpa [Army.deployed_units, List.map_map, Function.comp] using this
  · have := pots_part_keys_sublist a2.file_units
      (fun f u => FightPairsDefs.add_single_potentials f u a1)
    simpa [Army.deployed_units, List.map_map, Function.comp] using this

theorem add_all_sides (a1 a2 : Army K) :
    ∀ e ∈ FightPairsDefs.add_all_potentials a1 a2,
      (e.1 ∈ a1.deployed_units ∧ ∀ t ∈ e.2, t ∈ a2.deployed_units)
      ∨ (e.1 ∈ a2.deployed_units ∧ ∀ t ∈ e.2, t ∈ a1.deployed_units) := by
  intro e he
  unfold FightPairsDefs.add_all_potentials at he
  rcases List.mem_append.mp he with h | h
  · obtain ⟨p, hp, h1, h2⟩ :=
      pots_part_mem (F := fun f u => FightPairsDefs.add_single_potentials f u a2) h
    refine Or.inl ⟨?_, ?_⟩
    · rw [h1]; exact List.mem_map.mpr ⟨p, hp, rfl⟩
    · intro t ht
      rw [h2] at ht
      exact add_single_potentials_mem t ht
  · obtain ⟨p, hp, h1, h2⟩ :=
      pots_part_mem (F := fun f u => FightPairsDefs.add_single_potentials f u a1) h
    refine Or.inr ⟨?_, ?_⟩
    · rw [h1]; exact List.mem_map.mpr ⟨p, hp, rfl⟩
    · intro t ht
      rw [h2] at ht
      exact add_single_potentials_mem t ht

theorem assign_if_unique_perm (pots : List (Unit K × List (Unit K))) :
    (((FightPairsDefs.assign_if_unique_target pots []).2.map fun q => q.1.uid)
      ++ ((FightPairsDefs.assign_if_unique_target pots []).1.map fun e => e.1.uid)).Perm
      (pots.map fun e => e.1.uid) := by
  unfold FightPairsDefs.assign_if_unique_target
  simp only [List.nil_append]
  induction pots with
  | nil => simp
  | cons e rest ih =>
    match he : e.2 with
    | [t] =>
      have hc : (decide (([t] : List (Unit K)).length ≠ 1)) = false := by simp
      simp only [List.filterMap_cons, List.filter_cons, he, hc, Bool.false_eq_true,
        if_false, List.map_cons, List.cons_append]
      exact List.Perm.cons _ ih
    | [] =>
      have hc : (decide (([] : List (Unit K)).length ≠ 1)) = true := by simp
      simp only [List.filterMap_cons, List.filter_cons, he, hc, if_true, List.map_cons]
      exact List.Perm.trans List.perm_middle (List.Perm.cons _ ih)
    | t1 :: t2 :: ts =>
      have hc : (decide ((t1 :: t2 :: ts : List (Unit K)).length ≠ 1)) = true := by simp
      simp only [List.filterMap_cons, List.filter_cons, he, hc, if_true, List.map_cons]
      exact List.Perm.trans List.perm_middle (List.Perm.cons _ ih)

theorem assign_if_unique_entries (pots : List (Unit K × List (Unit K))) :
    (∀ q ∈ (FightPairsDefs.assign_if_unique_target pots []).2,
      ∃ e ∈ pots, e.1 = q.1 ∧ q.2 ∈ e.2)
    ∧ ∀ e ∈ (FightPairsDefs.assign_if_unique_target pots []).1, e ∈ pots := by
  unfold FightPairsDefs.assign_if_unique_target
  simp only [List.nil_append]
  constructor
  · intro q hq
    obtain ⟨e, he, hsome⟩ := List.mem_filterMap.mp hq
    match het : e.2 with
    | [t] =>
      rw [het] at hsome
      cases hsome
      exact ⟨e, he, rfl, by rw [het]; exact List.mem_singleton_self _⟩
    | [] => rw [het] at hsome; cases hsome
    | t1 :: t2 :: ts => rw [het] at hsome; cases hsome
  · intro e he
    exact List.mem_of_mem_filter he

theorem keys_eraseP_perm {β : Type} (g : β → ℕ) {l : List β} {x : ℕ}
    (hx : x ∈ l.map g) :
    (l.map g).Perm (x :: (l.eraseP fun e => g e == x).map g) := by
  obtain ⟨w, hw, hwx⟩ := List.mem_map.mp hx
  obtain ⟨a, l₁, l₂, h₁, h₂, h₃, h₄⟩ :=
    List.exists_of_eraseP (p := fun e : β => g e == x) hw (by simp [hwx])
  subst h₃
  rw [h₄]
  have hax : g a = x := by simpa using h₂
  simp only [List.map_append, List.map_cons, hax]
  exact List.perm_middle

theorem pool_mem_entry {pots : List (Unit K × List (Unit K))} {u t : Unit K}
    (h : (u, t) ∈ pots.flatMap fun p => p.2.map fun s => (p.1, s)) :
    ∃ e ∈ pots, e.1 = u ∧ t ∈ e.2 := by
  obtain ⟨e, he, hm⟩ := List.mem_flatMap.mp h
  obtain ⟨s, hs, heq⟩ := List.mem_map.mp hm
  refine ⟨e, he, ?_, ?_⟩
  · cases heq; rfl
  · have : s = t := by cases heq; rfl
    exact this ▸ hs

theorem best_loop_inv (P : Unit K × Unit K → Prop) :
    ∀ (fuel : ℕ) (pots : List (Unit K × List (Unit K))) (asg : List (Unit K × Unit K)),
      (((asg.map fun q => q.1.uid) ++ (pots.map fun e => e.1.uid)).Nodup) →
      (∀ q ∈ asg, P q) →
      (∀ e ∈ pots, ∀ t ∈ e.2, P (e.1, t)) →
      ((((FightPairsDefs.best_remaining_loop fuel (pots, asg)).2.map fun q => q.1.uid)).Nodup
        ∧ ∀ q ∈ (FightPairsDefs.best_remaining_loop fuel (pots, asg)).2, P q) := by
  intro fuel
  induction fuel with
  | zero =>
    intro pots asg hnd hasg hpots
    exact ⟨(List.nodup_append.mp hnd).1, hasg⟩
  | succ n ih =>
    intro pots asg hnd hasg hpots
    show ((FightPairsDefs.best_remaining_loop (n + 1) (pots, asg)).2.map fun q => q.1.uid).Nodup
      ∧ _
    rw [show FightPairsDefs.best_remaining_loop (n + 1) (pots, asg)
        = if pots.isEmpty then (pots, asg)
          else FightPairsDefs.best_remaining_loop n
            (FightPairsDefs.assign_best_remaining pots asg) from rfl]
    cases hpe : pots.isEmpty with
    | true =>
      simp only [if_true]
      exact ⟨(List.nodup_append.mp hnd).1, hasg⟩
    | false =>
      simp only [Bool.false_eq_true, if_false]
      simp only [FightPairsDefs.assign_best_remaining]
      cases hsel : List.argmax (fun q : Unit K × Unit K => fp_sort_key asg q.1 q.2)
          (pots.flatMap fun p => p.2.map fun t => (p.1, t)) with
      | none =>
        refine ih [] asg ?_ hasg (by intro e he; cases he)
        simpa using (List.nodup_append.mp hnd).1
      | some sel =>
        obtain ⟨unit, target⟩ := sel
        obtain ⟨e, he, heu, het⟩ := pool_mem_entry (List.argmax_mem hsel)
        have hP : P (unit, target) := heu ▸ hpots e he target het
        have hukeys : unit.uid ∈ pots.map fun e => e.1.uid :=
          List.mem_map.mpr ⟨e, he, by rw [heu]⟩
        have hperm : ((asg.map fun q => q.1.uid) ++ (pots.map fun e => e.1.uid)).Perm
            (((asg ++ [(unit, target)]).map fun q => q.1.uid)
              ++ ((pots.eraseP fun q => q.1.uid == unit.uid).map fun e => e.1.uid)) := by
          have hk := keys_eraseP_perm (fun e : Unit K × List (Unit K) => e.1.uid) hukeys
          refine List.Perm.trans (List.Perm.append_left _ hk) ?_
          rw [List.map_append, List.append_assoc]
          simp only [List.map_cons, List.map_nil, List.singleton_append]
          exact List.Perm.refl _
        refine ih _ _ (hperm.nodup hnd) ?_ ?_
        · intro q hq
          rcases List.mem_append.mp hq with h | h
          · exact hasg q h
          · have : q = (unit, target) := by simpa using h
            exact this ▸ hP
        · intro e2 he2 t ht
          exact hpots e2 (List.Sublist.mem he2 (List.eraseP_sublist pots)) t ht

theorem match_into_pairs_spec (asg : List (Unit K × Unit K))
    (hknd : (asg.map fun p => p.1.uid).Nodup)
    (hself : ∀ p ∈ asg, p.1.uid ≠ p.2.uid) :
    (∀ p ∈ (FightPairsDefs.match_into_pairs asg).1,
        dictGet (uidAssign asg) p.1.uid = some p.2.uid
          ∧ dictGet (uidAssign asg) p.2.uid = some p.1.uid)
    ∧ (∀ p ∈ (FightPairsDefs.match_into_pairs asg).2.1,
        dictGet (uidAssign asg) p.1.uid = some p.2.uid
          ∧ dictGet (uidAssign asg) p.2.uid ≠ some p.1.uid)
    ∧ ((((FightPairsDefs.match_into_pairs asg).1.flatMap fun p => [p.1.uid, p.2.uid])
        ++ ((FightPairsDefs.match_into_pairs asg).2.1.map fun p => p.1.uid) : List ℕ)
        : Multiset ℕ)
      = ((asg.map fun p => p.1.uid : List ℕ) : Multiset ℕ) := by
  have hmm : (asg.map (fun p => p.1)).map Unit.uid = asg.map fun p => p.1.uid := by
    rw [List.map_map]; rfl
  have hspec := match_aux_spec asg hknd hself asg.length (asg.map fun p => p.1) [] [] []
    (by rw [List.length_map])
    (fun u hu => by
      obtain ⟨p, hp, hpu⟩ := List.mem_map.mp hu
      exact ⟨p, hp, hpu⟩)
    (by rw [hmm]; exact hknd)
    (fun x y hx hy => by
      constructor
      · intro _
        rw [hmm]
        unfold dictGet at hy
        cases hf : (uidAssign asg).find? fun p => p.1 == y with
        | none => rw [hf] at hy; cases hy
        | some q =>
          have hq := List.mem_of_find?_eq_some hf
          have hqy : q.1 = y := by simpa using List.find?_some hf
          obtain ⟨p, hp, hpq⟩ := List.mem_map.mp hq
          refine List.mem_map.mpr ⟨p, hp, ?_⟩
          rw [show p.1.uid = q.1 from by rw [← hpq], hqy]
      · intro _
        rw [hmm]
        unfold dictGet at hx
        cases hf : (uidAssign asg).find? fun p => p.1 == x with
        | none => rw [hf] at hx; cases hx
        | some q =>
          have hq := List.mem_of_find?_eq_some hf
          have hqx : q.1 = x := by simpa using List.find?_some hf
          obtain ⟨p, hp, hpq⟩ := List.mem_map.mp hq
          refine List.mem_map.mpr ⟨p, hp, ?_⟩
          rw [show p.1.uid = q.1 from by rw [← hpq], hqx])
  refine ⟨?_, ?_, ?_⟩
  · intro p hp
    rcases hspec.1 p hp with h | h
    · cases h
    · exact h
  · intro p hp
    rcases hspec.2.1 p hp with h | h
    · cases h
    · exact h
  · have h3 := hspec.2.2
    simp only [List.flatMap_nil, List.map_nil, List.nil_append] at h3
    simp only [FightPairsDefs.match_into_pairs]
    rw [h3, hmm]
    simp

theorem assign_all_assignments_spec (fp : FightPairs K)
    (hids : ((fp.army_1.deployed_units ++ fp.army_2.deployed_units).map Unit.uid).Nodup) :
    (fp.assign_all.assignments.map fun q => q.1.uid).Nodup
    ∧ ∀ q ∈ fp.assign_all.assignments,
        (q.1 ∈ fp.army_1.deployed_units ∧ q.2 ∈ fp.army_2.deployed_units)
        ∨ (q.1 ∈ fp.army_2.deployed_units ∧ q.2 ∈ fp.army_1.deployed_units) := by
  have e : fp.assign_all.assignments
      = (FightPairsDefs.best_remaining_loop
          (FightPairsDefs.assign_if_unique_target
            (FightPairsDefs.add_all_potentials fp.army_1 fp.army_2) []).1.length
          (FightPairsDefs.assign_if_unique_target
            (FightPairsDefs.add_all_potentials fp.army_1 fp.army_2) [])).2 := rfl
  set pots := FightPairsDefs.add_all_potentials fp.army_1 fp.army_2 with hpdef
  set s1 := FightPairsDefs.assign_if_unique_target pots [] with hs1
  have hpots_nd : (pots.map fun q => q.1.uid).Nodup :=
    (add_all_keys_sublist fp.army_1 fp.army_2).nodup hids
  have hnd : ((s1.2.map fun q => q.1.uid) ++ (s1.1.map fun q => q.1.uid)).Nodup :=
    ((assign_if_unique_perm pots).symm.nodup_iff).mp hpots_nd
  have hP := assign_if_unique_entries (K := K) pots
  have hasg : ∀ q ∈ s1.2,
      (q.1 ∈ fp.army_1.deployed_units ∧ q.2 ∈ fp.army_2.deployed_units)
      ∨ (q.1 ∈ fp.army_2.deployed_units ∧ q.2 ∈ fp.army_1.deployed_units) := by
    intro q hq
    obtain ⟨ee, hee, h1, h2⟩ := hP.1 q hq
    rcases add_all_sides fp.army_1 fp.army_2 ee hee with ⟨hu, ht⟩ | ⟨hu, ht⟩
    · exact Or.inl ⟨h1 ▸ hu, ht _ h2⟩
    · exact Or.inr ⟨h1 ▸ hu, ht _ h2⟩
  have hpots : ∀ ee ∈ s1.1, ∀ t ∈ ee.2,
      ((ee.1, t).1 ∈ fp.army_1.deployed_units ∧ (ee.1, t).2 ∈ fp.army_2.deployed_units)
      ∨ ((ee.1, t).1 ∈ fp.army_2.deployed_units ∧ (ee.1, t).2 ∈ fp.army_1.deployed_units) := by
    intro ee hee t ht
    rcases add_all_sides fp.army_1 fp.army_2 ee (hP.2 ee hee) with ⟨hu, hts⟩ | ⟨hu, hts⟩
    · exact Or.inl ⟨hu, hts _ ht⟩
    · exact Or.inr ⟨hu, hts _ ht⟩
  have := best_loop_inv
    (fun q => (q.1 ∈ fp.army_1.deployed_units ∧ q.2 ∈ fp.army_2.deployed_units)
      ∨ (q.1 ∈ fp.army_2.deployed_units ∧ q.2 ∈ fp.army_1.deployed_units))
    s1.1.length s1.1 s1.2 hnd hasg hpots
  rw [e]
  rw [show ((s1.1, s1.2) : List (Unit K × List (Unit K)) × List (Unit K × Unit K)) = s1
    from rfl] at this
  exact this

/-- C3 (amended): after `assign_all`, provided all deployed units carry
distinct identities, every two-way pair is mutually assigned and every
one-way pair (A, B) has A assigned to B while B is not assigned to A; and
the members of the two-way pairs together with the attackers of the
one-way pairs enumerate the assignment keys without repetition.  (The
unqualified claim that no unit appears in more than one pair is false: a
unit may be the target of several one-way pairs, see the
counterexample.) -/
theorem claim_C3_pairs_amended (fp : FightPairs K)
    (hids : ((fp.army_1.deployed_units ++ fp.army_2.deployed_units).map Unit.uid).Nodup) :
    (∀ p ∈ fp.assign_all.two_way_pairs,
        dictGet (uidAssign fp.assign_all.assignments) p.1.uid = some p.2.uid
          ∧ dictGet (uidAssign fp.assign_all.assignments) p.2.uid = some p.1.uid)
    ∧ (∀ p ∈ fp.assign_all.one_way_pairs,
        dictGet (uidAssign fp.assign_all.assignments) p.1.uid = some p.2.uid
          ∧ dictGet (uidAssign fp.assign_all.assignments) p.2.uid ≠ some p.1.uid)
    ∧ ((fp.assign_all.two_way_pairs.flatMap fun p => [p.1.uid, p.2.uid])
        ++ fp.assign_all.one_way_pairs.map fun p => p.1.uid).Perm
        (fp.assign_all.assignments.map fun p => p.1.uid)
    ∧ ((fp.assign_all.two_way_pairs.flatMap fun p => [p.1.uid, p.2.uid])
        ++ fp.assign_all.one_way_pairs.map fun p => p.1.uid).Nodup := by
  obtain ⟨hknd, hsides⟩ := assign_all_assignments_spec fp hids
  rw [List.map_append] at hids
  obtain ⟨-, -, hdisj⟩ := List.nodup_append.mp hids
  have hself : ∀ q ∈ fp.assign_all.assignments, q.1.uid ≠ q.2.uid := by
    intro q hq heq
    rcases hsides q hq with ⟨ha, hb⟩ | ⟨ha, hb⟩
    · exact hdisj (List.mem_map.mpr ⟨q.1, ha, rfl⟩)
        (heq ▸ List.mem_map.mpr ⟨q.2, hb, rfl⟩)
    · exact hdisj (List.mem_map.mpr ⟨q.2, hb, rfl⟩)
        (heq ▸ List.mem_map.mpr ⟨q.1, ha, rfl⟩)
  obtain ⟨h1, h2, h3⟩ := match_into_pairs_spec fp.assign_all.assignments hknd hself
  have etw : fp.assign_all.two_way_pairs
      = (FightPairsDefs.match_into_pairs fp.assign_all.assignments).1 := rfl
  have eow : fp.assign_all.one_way_pairs
      = (FightPairsDefs.match_into_pairs fp.assign_all.assignments).2.1 := rfl
  rw [etw, eow]
  have hperm := Multiset.coe_eq_coe.mp h3
  exact ⟨h1, h2, hperm, hperm.nodup_iff.mpr hknd⟩

theorem claim_C3_witness :
    ((wFP.army_1.deployed_units ++ wFP.army_2.deployed_units).map Unit.uid).Nodup
    ∧ ((∀ p ∈ wFP.assign_all.two_way_pairs,
          dictGet (uidAssign wFP.assign_all.assignments) p.1.uid = some p.2.uid
            ∧ dictGet (uidAssign wFP.assign_all.assignments) p.2.uid = some p.1.uid)
      ∧ (∀ p ∈ wFP.assign_all.one_way_pairs,
          dictGet (uidAssign wFP.assign_all.assignments) p.1.uid = some p.2.uid
            ∧ dictGet (uidAssign wFP.assign_all.assignments) p.2.uid ≠ some p.1.uid)
      ∧ ((wFP.assign_all.two_way_pairs.flatMap fun p => [p.1.uid, p.2.uid])
          ++ wFP.assign_all.one_way_pairs.map fun p => p.1.uid).Perm
          (wFP.assign_all.assignments.map fun p => p.1.uid)
      ∧ ((wFP.assign_all.two_way_pairs.flatMap fun p => [p.1.uid, p.2.uid])
          ++ wFP.assign_all.one_way_pairs.map fun p => p.1.uid).Nodup) :=
  ⟨by decide!, claim_C3_pairs_amended wFP (by decide!)⟩

theorem dictDel_of_get (l : List (ℤ × α)) (k : ℤ) (v : α) (h : dictGet l k = some v) :
    ((l.map fun p => p.2 : List α) : Multiset α)
      = v ::ₘ ((dictDel l k).map fun p => p.2 : List α)
    ∧ ((l.map fun p => p.1 : List ℤ) : Multiset ℤ)
      = (k : ℤ) ::ₘ ((dictDel l k).map fun p => p.1 : List ℤ) := by
  induction l with
  | nil => simp [dictGet] at h
  | cons q rest ih =>
    unfold dictGet at h ih
    rw [List.find?_cons] at h
    cases hc : (q.1 == k) with
    | true =>
      rw [hc] at h
      simp only [Option.map_some] at h
      cases h
      have hk : q.1 = k := by simpa using hc
      unfold dictDel
      simp only [List.eraseP_cons, hc, cond_true]
      constructor
      · simp [Multiset.cons_coe]
      · simp [Multiset.cons_coe, hk]
    | false =>
      rw [hc] at h
      obtain ⟨h1, h2⟩ := ih h
      unfold dictDel at h1 h2 ⊢
      simp only [List.eraseP_cons, hc, cond_false]
      constructor
      · simp only [List.map_cons, ← Multiset.cons_coe, h1, Multiset.cons_swap]
      · simp only [List.map_cons, ← Multiset.cons_coe, h2, Multiset.cons_swap]

theorem dictGet_none (l : List (ℤ × α)) (k : ℤ) (h : dictGet l k = none) :
    (l.any fun p => p.1 == k) = false ∧ k ∉ dictKeys l := by
  unfold dictGet at h
  have hf : l.find? (fun p => p.1 == k) = none := by
    cases hx : l.find? fun p => p.1 == k with
    | none => rfl
    | some q => rw [hx] at h; cases h
  have hall := List.find?_eq_none.mp hf
  constructor
  · exact List.any_eq_false.mpr hall
  · intro hk
    obtain ⟨p, hp, hpk⟩ := List.mem_map.mp hk
    exact hall p hp (by simp [hpk])

theorem dictSet_append (l : List (ℤ × α)) (k : ℤ) (v : α)
    (h : (l.any fun p => p.1 == k) = false) :
    dictSet l k v = l ++ [(k, v)] := by
  unfold dictSet
  rw [h]
  simp

theorem dictModify_keys (l : List (ℤ × α)) (k : ℤ) (f : α → α) :
    dictKeys (dictModify l k f) = dictKeys l := by
  unfold dictKeys dictModify
  induction l with
  | nil => rfl
  | cons q rest ih =>
    simp only [List.map_cons, ih]
    split <;> rfl

theorem dictModify_uids (l : List (ℤ × Unit K)) (k : ℤ) (g : Unit K → Unit K)
    (hg : ∀ u, (g u).uid = u.uid) :
    (dictModify l k g).map (fun p => p.2.uid) = l.map fun p => p.2.uid := by
  unfold dictModify
  induction l with
  | nil => rfl
  | cons q rest ih =>
    simp only [List.map_cons, ih]
    split
    · rw [hg]
    · rfl

theorem map_snd_uids (l : List (ℤ × Unit K)) (g : Unit K → Unit K)
    (hg : ∀ u, (g u).uid = u.uid) :
    ((l.map fun p => (p.1, g p.2)).map (fun p => p.2.uid) = l.map fun p => p.2.uid)
    ∧ dictKeys (l.map fun p => (p.1, g p.2)) = dictKeys l := by
  constructor
  · induction l with
    | nil => rfl
    | cons q rest ih => simp only [List.map_cons, ih, hg]
  · unfold dictKeys
    induction l with
    | nil => rfl
    | cons q rest ih => simp only [List.map_cons, ih]

theorem map_uids (l : List (Unit K)) (g : Unit K → Unit K)
    (hg : ∀ u, (g u).uid = u.uid) :
    (l.map g).map Unit.uid = l.map Unit.uid := by
  induction l with
  | nil => rfl
  | cons q rest ih => simp only [List.map_cons, ih, hg]

theorem uid_cap_position (u : Unit K) : (u.cap_position).uid = u.uid := rfl

theorem uid_move_to (u : Unit K) (p : K) : (u.move_to p).uid = u.uid := rfl

theorem uid_move_by (u : Unit K) (d : K) : (u.move_by d).uid = u.uid := rfl

theorem uid_move_towards (u : Unit K) (dt target speed : K) :
    (u.move_towards dt target speed).uid = u.uid := by
  unfold Unit.move_towards
  split_ifs <;> rfl

theorem uid_confirm_move (u : Unit K) (g op ol nl : K) :
    (u.confirm_move g op ol nl).uid = u.uid := by
  simp only [Unit.confirm_move]
  split_ifs <;> rfl

theorem uid_deploy_close_to (u : Unit K) (file : ℤ) (rp : K) :
    (u.deploy_close_to file rp).uid = u.uid := rfl

theorem uid_move_safely_away_from_pos (u : Unit K) (rp : K) :
    (u.move_safely_away_from_pos rp).uid = u.uid := by
  unfold Unit.move_safely_away_from_pos
  split_ifs <;> rfl

theorem uidList_army_map (a : Army K) (g : Unit K → Unit K)
    (hg : ∀ u, (g u).uid = u.uid) :
    (Army.uidList { a with file_units := a.file_units.map fun p => (p.1, g p.2),
                           reserves := a.reserves.map g, removed := a.removed.map g }
      = a.uidList)
    ∧ dictKeys (a.file_units.map fun p => (p.1, g p.2)) = dictKeys a.file_units := by
  obtain ⟨h1, h2⟩ := map_snd_uids a.file_units g hg
  refine ⟨?_, h2⟩
  unfold Army.uidList
  rw [h1, map_uids a.reserves g hg, map_uids a.removed g hg]

theorem modifyUnit_shape (b : Battle K) (v : ℕ) (f : Unit K → Unit K)
    (hf : ∀ u, (f u).uid = u.uid) :
    (b.modifyUnit v f).shape = b.shape := by
  have hg : ∀ u : Unit K, ((fun u => if u.uid = v then f u else u) u).uid = u.uid := by
    intro u
    show (if u.uid = v then f u else u).uid = u.uid
    split
    · exact hf u
    · rfl
  unfold Battle.modifyUnit Battle.shape
  obtain ⟨ha1, hk1⟩ := uidList_army_map b.army_1 _ hg
  obtain ⟨ha2, hk2⟩ := uidList_army_map b.army_2 _ hg
  simp only at ha1 hk1 ha2 hk2 ⊢
  rw [ha1, hk1, ha2, hk2]

theorem foldl_shape (f : Battle K → α → Battle K) (l : List α) (b : Battle K)
    (h : ∀ c x, x ∈ l → (f c x).shape = c.shape) :
    (l.foldl f b).shape = b.shape := by
  induction l generalizing b with
  | nil => rfl
  | cons x xs ih =>
    rw [List.foldl_cons, ih _ fun c y hy => h c y (List.mem_cons_of_mem _ hy),
      h b x (List.mem_cons_self _ _)]

theorem foldl_inv (P : Battle K → Prop) (f : Battle K → α → Battle K) (l : List α)
    (b : Battle K) (hb : P b) (h : ∀ c x, x ∈ l → P c → P (f c x)) :
    P (l.foldl f b) := by
  induction l generalizing b with
  | nil => exact hb
  | cons x xs ih =>
    exact ih _ (h b x (List.mem_cons_self _ _) hb) fun c y hy => h c y (List.mem_cons_of_mem _ hy)

theorem shape_congr {b b' : Battle K} (h : b'.shape = b.shape) :
    b'.uidMsPair = b.uidMsPair ∧ (b'.KeysOk ↔ b.KeysOk) := by
  unfold Battle.shape at h
  have h1 := congrArg (fun s : List ℕ × List ℕ × List ℤ × List ℤ => s.1) h
  have h2 := congrArg (fun s : List ℕ × List ℕ × List ℤ × List ℤ => s.2.1) h
  have h3 := congrArg (fun s : List ℕ × List ℕ × List ℤ × List ℤ => s.2.2.1) h
  have h4 := congrArg (fun s : List ℕ × List ℕ × List ℤ × List ℤ => s.2.2.2) h
  simp only at h1 h2 h3 h4
  constructor
  · unfold Battle.uidMsPair Army.uidMs
    rw [h1, h2]
  · unfold Battle.KeysOk Army.NodupKeys
    rw [h3, h4]

theorem inflict_casualties_shape (L : Landscape K) (dt : K) (b : Battle K) (v : ℕ)
    (bal : K) : (Battle.inflict_casualties L dt b v bal).shape = b.shape :=
  modifyUnit_shape b v _ fun _ => rfl

theorem push_from_winner_shape (L : Landscape K) (dt : K) (b : Battle K)
    (w l : ℕ) (bal : K) : (Battle.push_from_winner L dt b w l bal).shape = b.shape := by
  have hb2 : ∀ (b' : Battle K) (li : ℕ) (d : K),
      (b'.modifyUnit li fun x => x.move_by d).shape = b'.shape := fun b' li d =>
    modifyUnit_shape b' li _ fun u => uid_move_by u d
  unfold Battle.push_from_winner
  split
  · dsimp only
    split
    all_goals first
      | exact hb2 _ _ _
      | (split_ifs <;> first
          | exact (hb2 _ _ _).trans (hb2 _ _ _)
          | exact hb2 _ _ _)
  · rfl

theorem push_from_fight_shape (L : Landscape K) (dt : K) (b : Battle K)
    (x y : ℕ) (bal : K) : (Battle.push_from_fight L dt b x y bal).shape = b.shape := by
  unfold Battle.push_from_fight
  split_ifs
  · exact push_from_winner_shape L dt b x y bal
  · exact push_from_winner_shape L dt b y x _
  · rfl

theorem call_neighbors_forward_shape (b : Battle K) (v : ℕ) :
    (Battle.call_neighbors_forward b v).shape = b.shape := by
  unfold Battle.call_neighbors_forward
  split
  · rfl
  · refine foldl_shape _ _ _ fun c x _ => ?_
    split_ifs
    · rfl
    · exact modifyUnit_shape c x.uid _ fun _ => rfl
    · rfl

theorem fight_two_way_shape (T : Transcend K) (L : Landscape K) (dt : K)
    (b : Battle K) (pA pB : Unit K) :
    (Battle.fight_two_way T L dt b pA pB).shape = b.shape := by
  unfold Battle.fight_two_way
  split
  · exact (push_from_fight_shape _ _ _ _ _ _).trans
      ((inflict_casualties_shape _ _ _ _ _).trans (inflict_casualties_shape _ _ _ _ _))
  · rfl

theorem fight_one_way_shape (T : Transcend K) (L : Landscape K) (dt : K)
    (b : Battle K) (pA pB : Unit K) :
    (Battle.fight_one_way T L dt b pA pB).shape = b.shape := by
  unfold Battle.fight_one_way
  split
  · exact (call_neighbors_forward_shape _ _).trans
      ((modifyUnit_shape _ _ (fun u => { u with stance := Stance.AGGR }) fun _ => rfl).trans
        (inflict_casualties_shape _ _ _ _ _))
  · rfl

theorem fight_shape (T : Transcend K) (L : Landscape K) (dt : K) (b : Battle K) :
    (Battle.fight T L dt b).shape = b.shape := by
  unfold Battle.fight
  exact (foldl_shape _ _ _ fun c p _ => fight_one_way_shape T L dt c p.1 p.2).trans
    (foldl_shape _ _ _ fun c p _ => fight_two_way_shape T L dt c p.1 p.2)

theorem change_all_units_morale_shape (a : Army K) (c : K) :
    (a.change_all_units_morale c).uidList = a.uidList
    ∧ dictKeys (a.change_all_units_morale c).file_units = dictKeys a.file_units := by
  obtain ⟨h1, h2⟩ := map_snd_uids a.file_units
    (fun u => { u with morale := u.morale + c }) fun _ => rfl
  unfold Army.change_all_units_morale Army.uidList
  refine ⟨?_, h2⟩
  simp only
  rw [h1, map_uids a.reserves (fun u => { u with morale := u.morale + c }) fun _ => rfl]

theorem setArmy_change_morale_shape (b : Battle K) (s : Bool) (c : K) :
    (b.setArmy s ((b.armyOf s).change_all_units_morale c)).shape = b.shape := by
  cases s with
  | false =>
    obtain ⟨h1, h2⟩ := change_all_units_morale_shape b.army_2 c
    simp [Battle.setArmy, Battle.armyOf, Battle.shape, h1, h2]
  | true =>
    obtain ⟨h1, h2⟩ := change_all_units_morale_shape b.army_1 c
    simp [Battle.setArmy, Battle.armyOf, Battle.shape, h1, h2]

theorem change_morale_from_first_pursue_shape (b : Battle K) :
    (Battle.change_morale_from_first_pursue b).shape = b.shape := by
  unfold Battle.change_morale_from_first_pursue
  refine foldl_shape _ _ _ fun c u _ => ?_
  split_ifs
  · split
    · exact setArmy_change_morale_shape _ _ _
    · rfl
  · rfl

theorem move_towards_haltingly_shape (T : Transcend K) (L : Landscape K) (dt : K)
    (b : Battle K) (v : ℕ) (target speed : K) :
    (Battle.move_towards_haltingly T L dt b v target speed).shape = b.shape := by
  unfold Battle.move_towards_haltingly
  split
  · rfl
  · dsimp only
    split
    · exact modifyUnit_shape _ _ _ fun u => uid_move_towards u _ _ _
    · exact (modifyUnit_shape _ _ _ fun u => uid_confirm_move u _ _ _ _).trans
        (modifyUnit_shape _ _ _ fun u => uid_move_towards u _ _ _)

theorem move_unit_towards_in_stance_shape (T : Transcend K) (L : Landscape K)
    (dt : K) (b : Battle K) (v : ℕ) (target : K) :
    (Battle.move_unit_towards_in_stance T L dt b v target).shape = b.shape := by
  unfold Battle.move_unit_towards_in_stance
  split
  · rfl
  · dsimp only
    split
    · exact modifyUnit_shape _ _ _ fun u => uid_move_towards u _ _ _
    · exact modifyUnit_shape _ _ _ fun u => uid_move_towards u _ _ _
    · exact move_towards_haltingly_shape T L dt b v target _

theorem move_shape (T : Transcend K) (L : Landscape K) (dt : K) (b : Battle K) :
    (Battle.move T L dt b).shape = b.shape := by
  unfold Battle.move
  refine foldl_shape _ _ _ fun c u _ => ?_
  split
  · rfl
  · split
    · exact modifyUnit_shape _ _ _ fun u => uid_move_towards u _ _ _
    · split_ifs
      · exact move_unit_towards_in_stance_shape T L dt c _ _
      · rfl

theorem uidMs_parts (a : Army K) :
    a.uidMs = ((a.file_units.map fun p => p.2.uid : List ℕ) : Multiset ℕ)
      + ((a.reserves.map Unit.uid : List ℕ) : Multiset ℕ)
      + ((a.removed.map Unit.uid : List ℕ) : Multiset ℕ) := by
  unfold Army.uidMs Army.uidList
  simp only [List.map_append, ← Multiset.coe_add]

theorem dictDel_uids (l : List (ℤ × Unit K)) (k : ℤ) (v : Unit K)
    (h : dictGet l k = some v) :
    ((l.map fun p => p.2.uid : List ℕ) : Multiset ℕ)
      = v.uid ::ₘ ((dictDel l k).map fun p => p.2.uid : List ℕ) := by
  have := congrArg (Multiset.map Unit.uid) (dictDel_of_get l k v h).1
  simpa [Multiset.map_coe, List.map_map, Function.comp] using this

theorem dictDel_nodup_not_mem (l : List (ℤ × α)) (k : ℤ) (v : α)
    (hnd : (dictKeys l).Nodup) (h : dictGet l k = some v) :
    k ∉ dictKeys (dictDel l k) ∧ (dictKeys (dictDel l k)).Nodup := by
  have hk := (dictDel_of_get l k v h).2
  have hms : ((dictKeys l : List ℤ) : Multiset ℤ).Nodup := Multiset.coe_nodup.mpr hnd
  unfold dictKeys at hk hms ⊢
  rw [hk] at hms
  obtain ⟨hnot, hnd2⟩ := Multiset.nodup_cons.mp hms
  exact ⟨fun hm => hnot (Multiset.mem_coe.mpr hm), Multiset.coe_nodup.mp hnd2⟩

theorem dictGet_none_of_not_mem (l : List (ℤ × α)) (k : ℤ) (h : k ∉ dictKeys l) :
    dictGet l k = none := by
  unfold dictGet
  rw [List.find?_eq_none.mpr]
  · rfl
  · intro p hp hpk
    exact h (List.mem_map.mpr ⟨p, hp, by simpa using hpk⟩)

theorem dictDel_append_left (l : List (ℤ × α)) (k : ℤ) (v : α)
    (h : dictGet l k = some v) (tail : List (ℤ × α)) :
    dictDel (l ++ tail) k = dictDel l k ++ tail := by
  induction l with
  | nil => simp [dictGet] at h
  | cons q rest ih =>
    unfold dictGet at h ih
    rw [List.find?_cons] at h
    cases hc : (q.1 == k) with
    | true =>
      unfold dictDel
      simp only [List.cons_append, List.eraseP_cons, hc, cond_true]
    | false =>
      rw [hc] at h
      unfold dictDel at ih ⊢
      simp only [List.cons_append, List.eraseP_cons, hc, cond_false, ih h]

theorem slide_file_towards_centre_spec (a : Army K) (file : ℤ) :
    (a.slide_file_towards_centre file).uidMs = a.uidMs
    ∧ (a.NodupKeys → (a.slide_file_towards_centre file).NodupKeys) := by
  unfold Army.slide_file_towards_centre
  dsimp only
  split
  · exact ⟨rfl, fun h => h⟩
  next hact =>
    split
    · exact ⟨rfl, fun h => h⟩
    · next u hget =>
      have hnf : dictGet a.file_units (if file < 0 then file + 1 else file - 1) = none := by
        have h' := hact
        unfold Army.is_file_towards_centre_active Army.is_file_active at h'
        cases hx : dictGet a.file_units (if file < 0 then file + 1 else file - 1) with
        | none => rfl
        | some w => exact absurd (by rw [hx]; rfl) h'
      obtain ⟨hany, hmem⟩ := dictGet_none _ _ hnf
      have hdel := dictDel_uids a.file_units file u hget
      constructor
      · dsimp only
        rw [dictSet_append _ _ _ hany, dictDel_append_left _ _ _ hget]
        rw [uidMs_parts, uidMs_parts]
        dsimp only
        rw [List.map_append]
        simp only [List.map_cons, List.map_nil, ← Multiset.coe_add, hdel,
          Multiset.coe_singleton, ← Multiset.singleton_add]
        abel
      · intro hnd
        unfold Army.NodupKeys at hnd ⊢
        dsimp only
        rw [dictSet_append _ _ _ hany, dictDel_append_left _ _ _ hget]
        obtain ⟨hnotm, hnd2⟩ := dictDel_nodup_not_mem a.file_units file u hnd hget
        unfold dictKeys at hnd2 hmem ⊢
        rw [List.map_append]
        refine List.nodup_append.mpr ⟨hnd2, List.nodup_singleton _, ?_⟩
        intro x hx hy
        simp only [List.map_cons, List.map_nil] at hy
        rw [List.mem_singleton] at hy
        rw [hy] at hx
        have hsub := (List.eraseP_sublist (l := a.file_units)
          (p := fun p => p.1 == file)).map fun p => p.1
        exact hmem (hsub.mem hx)

theorem deploy_reserve_to_file_spec (a other : Army K) (file : ℤ) (rp : K)
    (h : a.is_file_active file = false) :
    (a.deploy_reserve_to_file other file rp).1.uidMs = a.uidMs
    ∧ (a.deploy_reserve_to_file other file rp).2.uidMs = other.uidMs
    ∧ (a.NodupKeys → (a.deploy_reserve_to_file other file rp).1.NodupKeys)
    ∧ (other.NodupKeys → (a.deploy_reserve_to_file other file rp).2.NodupKeys) := by
  have hget : dictGet a.file_units file = none := by
    unfold Army.is_file_active at h
    cases hx : dictGet a.file_units file with
    | none => rfl
    | some w => rw [hx] at h; simp at h
  obtain ⟨hany, hmem⟩ := dictGet_none _ _ hget
  unfold Army.deploy_reserve_to_file
  split
  · exact ⟨rfl, rfl, fun h => h, fun h => h⟩
  · next nu rest hres =>
    refine ⟨?_, ?_, ?_, ?_⟩
    · rw [uidMs_parts, uidMs_parts]
      dsimp only
      rw [dictSet_append _ _ _ hany, List.map_append, hres]
      simp only [List.map_cons, List.map_nil, ← Multiset.coe_add,
        ← Multiset.cons_coe, Multiset.coe_singleton, ← Multiset.singleton_add,
        uid_deploy_close_to]
      abel
    · rw [uidMs_parts, uidMs_parts]
      unfold Army.move_unit_safely_away_from_enemy
      dsimp only
      rw [dictModify_uids other.file_units _ _
        fun x => uid_move_safely_away_from_pos x _]
    · intro hnd
      unfold Army.NodupKeys at hnd ⊢
      dsimp only
      rw [dictSet_append _ _ _ hany]
      unfold dictKeys at hnd hmem ⊢
      rw [List.map_append]
      refine List.nodup_append.mpr ⟨hnd, List.nodup_singleton _, ?_⟩
      intro x hx hy
      simp only [List.map_cons, List.map_nil] at hy
      rw [List.mem_singleton] at hy
      rw [hy] at hx
      exact hmem hx
    · intro hnd
      unfold Army.NodupKeys at hnd ⊢
      unfold Army.move_unit_safely_away_from_enemy
      dsimp only
      rw [dictModify_keys]
      exact hnd

theorem remove_unit_spec (a other : Army K) (u : Unit K) (hnd : a.NodupKeys) :
    (a.remove_unit other u).1.uidMs = a.uidMs
    ∧ (a.remove_unit other u).2.uidMs = other.uidMs
    ∧ (a.remove_unit other u).1.NodupKeys
    ∧ (other.NodupKeys → (a.remove_unit other u).2.NodupKeys) := by
  unfold Army.remove_unit
  split
  · next u2 hget =>
    split_ifs with huid
    · obtain ⟨hnotm, hnd2⟩ := dictDel_nodup_not_mem a.file_units u.file u2 hnd hget
      have hfa : (Army.is_file_active
          { a with file_units := dictDel a.file_units u.file,
                   removed := a.removed ++ [u2] } u.file) = false := by
        unfold Army.is_file_active
        rw [dictGet_none_of_not_mem _ _ hnotm]
        rfl
      obtain ⟨d1, d2, d3, d4⟩ := deploy_reserve_to_file_spec
        { a with file_units := dictDel a.file_units u.file,
                 removed := a.removed ++ [u2] } other u.file u2.position hfa
      refine ⟨?_, d2, ?_, d4⟩
      · rw [d1, uidMs_parts, uidMs_parts]
        dsimp only
        rw [List.map_append]
        simp only [List.map_cons, List.map_nil, ← Multiset.coe_add,
          Multiset.coe_singleton, ← Multiset.singleton_add,
          dictDel_uids a.file_units u.file u2 hget]
        abel
      · exact d3 hnd2
    · exact ⟨rfl, rfl, hnd, fun h => h⟩
  · exact ⟨rfl, rfl, hnd, fun h => h⟩

theorem setArmy_remove_pair (b : Battle K) (s : Bool) (u : Unit K) (hk : b.KeysOk) :
    ((b.setArmy s ((b.armyOf s).remove_unit (b.armyOf (!s)) u).1).setArmy (!s)
        ((b.armyOf s).remove_unit (b.armyOf (!s)) u).2).uidMsPair = b.uidMsPair
    ∧ ((b.setArmy s ((b.armyOf s).remove_unit (b.armyOf (!s)) u).1).setArmy (!s)
        ((b.armyOf s).remove_unit (b.armyOf (!s)) u).2).KeysOk := by
  cases s with
  | true =>
    obtain ⟨r1, r2, r3, r4⟩ := remove_unit_spec b.army_1 b.army_2 u hk.1
    constructor
    · show ((b.army_1.remove_unit b.army_2 u).1.uidMs,
        (b.army_1.remove_unit b.army_2 u).2.uidMs) = (b.army_1.uidMs, b.army_2.uidMs)
      rw [r1, r2]
    · exact ⟨r3, r4 hk.2⟩
  | false =>
    obtain ⟨r1, r2, r3, r4⟩ := remove_unit_spec b.army_2 b.army_1 u hk.2
    constructor
    · show ((b.army_2.remove_unit b.army_1 u).2.uidMs,
        (b.army_2.remove_unit b.army_1 u).1.uidMs) = (b.army_1.uidMs, b.army_2.uidMs)
      rw [r1, r2]
    · exact ⟨r4 hk.1, r3⟩

theorem setArmy_slide_pair (b : Battle K) (s : Bool) (file : ℤ) (hk : b.KeysOk) :
    (b.setArmy s ((b.armyOf s).slide_file_towards_centre file)).uidMsPair = b.uidMsPair
    ∧ (b.setArmy s ((b.armyOf s).slide_file_towards_centre file)).KeysOk := by
  cases s with
  | true =>
    obtain ⟨r1, r2⟩ := slide_file_towards_centre_spec b.army_1 file
    constructor
    · show ((b.army_1.slide_file_towards_centre file).uidMs, b.army_2.uidMs)
        = (b.army_1.uidMs, b.army_2.uidMs)
      rw [r1]
    · exact ⟨r2 hk.1, hk.2⟩
  | false =>
    obtain ⟨r1, r2⟩ := slide_file_towards_centre_spec b.army_2 file
    constructor
    · show (b.army_1.uidMs, (b.army_2.slide_file_towards_centre file).uidMs)
        = (b.army_1.uidMs, b.army_2.uidMs)
      rw [r1]
    · exact ⟨hk.1, r2 hk.2⟩

theorem update_status_inv (b : Battle K) (hk : b.KeysOk) :
    (Battle.update_status b).uidMsPair = b.uidMsPair ∧ (Battle.update_status b).KeysOk := by
  unfold Battle.update_status
  refine foldl_inv (fun c => c.uidMsPair = b.uidMsPair ∧ c.KeysOk) _ _ _ ⟨rfl, hk⟩ ?_
  rintro c u0 - ⟨hms, hck⟩
  split
  · exact ⟨hms, hck⟩
  · next u side heq =>
    obtain ⟨hms1, hck1⟩ := shape_congr (modifyUnit_shape c u.uid
      (fun x => { x with stance := (c.armyOf side).stance }) fun _ => rfl)
    dsimp only
    split
    · exact ⟨hms1.trans hms, hck1.mpr hck⟩
    · next u1 side1 heq1 =>
      split_ifs
      · obtain ⟨e1, e2⟩ := setArmy_remove_pair
          (c.modifyUnit u.uid fun x => { x with stance := (c.armyOf side).stance })
          side1 u1 (hck1.mpr hck)
        exact ⟨e1.trans (hms1.trans hms), e2⟩
      · obtain ⟨f1, f2⟩ := shape_congr (modifyUnit_shape
          (c.modifyUnit u.uid fun x => { x with stance := (c.armyOf side).stance })
          u1.uid (fun x => { x with pursuing := true }) fun _ => rfl)
        exact ⟨f1.trans (hms1.trans hms), f2.mpr (hck1.mpr hck)⟩
      · obtain ⟨f1, f2⟩ := shape_congr (modifyUnit_shape
          (c.modifyUnit u.uid fun x => { x with stance := (c.armyOf side).stance })
          u1.uid (fun x => { x with pursuing := false }) fun _ => rfl)
        exact ⟨f1.trans (hms1.trans hms), f2.mpr (hck1.mpr hck)⟩

theorem reduce_files_inv (b : Battle K) (hk : b.KeysOk) :
    (Battle.reduce_files b).uidMsPair = b.uidMsPair ∧ (Battle.reduce_files b).KeysOk := by
  unfold Battle.reduce_files
  refine foldl_inv (fun c => c.uidMsPair = b.uidMsPair ∧ c.KeysOk) _ _ _ ⟨rfl, hk⟩ ?_
  rintro c u0 - ⟨hms, hck⟩
  split
  · exact ⟨hms, hck⟩
  · next u side heq =>
    split
    · split
      · split
        · obtain ⟨e1, e2⟩ := setArmy_slide_pair c side u.file hck
          exact ⟨e1.trans hms, e2⟩
        · exact ⟨hms, hck⟩
      · exact ⟨hms, hck⟩
    · exact ⟨hms, hck⟩

theorem tidy_inv (b : Battle K) (hk : b.KeysOk) :
    (Battle.tidy b).uidMsPair = b.uidMsPair ∧ (Battle.tidy b).KeysOk := by
  unfold Battle.tidy
  obtain ⟨c1, c2⟩ := shape_congr (change_morale_from_first_pursue_shape b)
  obtain ⟨d1, d2⟩ := reduce_files_inv _ (c2.mpr hk)
  obtain ⟨e1, e2⟩ := update_status_inv _ d2
  exact ⟨e1.trans (d1.trans c1), e2⟩

theorem do_turn_inv (T : Transcend K) (L : Landscape K) (dt : K) (b : Battle K)
    (hk : b.KeysOk) :
    (Battle.do_turn T L dt b).uidMsPair = b.uidMsPair
    ∧ (Battle.do_turn T L dt b).KeysOk := by
  unfold Battle.do_turn
  obtain ⟨t1, t2⟩ := tidy_inv b hk
  obtain ⟨f1, f2⟩ := shape_congr (fight_shape T L dt (Battle.tidy b))
  obtain ⟨m1, m2⟩ := shape_congr (move_shape T L dt (Battle.fight T L dt (Battle.tidy b)))
  exact ⟨m1.trans (f1.trans t1), m2.mpr (f2.mpr t2)⟩

theorem run_loop_inv (T : Transcend K) (L : Landscape K) (dt : K) (fuel : ℕ)
    (b : Battle K) (hk : b.KeysOk) :
    (Battle.run_loop T L dt fuel b).uidMsPair = b.uidMsPair
    ∧ (Battle.run_loop T L dt fuel b).KeysOk := by
  induction fuel generalizing b with
  | zero => exact ⟨rfl, hk⟩
  | succ n ih =>
    unfold Battle.run_loop
    split_ifs
    · exact ⟨rfl, hk⟩
    · obtain ⟨d1, d2⟩ := do_turn_inv T L dt { b with turns := b.turns + 1 } hk
      obtain ⟨r1, r2⟩ := ih _ d2
      exact ⟨r1.trans d1, r2⟩

/-- C5: the identity multiset of each army (deployed units + reserve queue
+ removed list) is preserved by every roster-moving operation —
`remove_unit` (given distinct file keys), `deploy_reserve_to_file` (on an
unoccupied file, as at its only call site), `slide_file_towards_centre`,
and the tidy/fight/move phases and whole turns — and hence along the whole
battle loop: no unit is lost and none is duplicated (an initially
duplicate-free roster stays duplicate-free). -/
theorem claim_C5_roster_partition (T : Transcend K) (L : Landscape K) (dt : K)
    (a other : Army K) (u : Unit K) (file : ℤ) (ref_pos : K) (b : Battle K) (fuel : ℕ)
    (hnd : a.NodupKeys) (hfa : a.is_file_active file = false) (hb : b.KeysOk) :
    ((a.remove_unit other u).1.uidMs = a.uidMs
      ∧ (a.remove_unit other u).2.uidMs = other.uidMs)
    ∧ ((a.deploy_reserve_to_file other file ref_pos).1.uidMs = a.uidMs
      ∧ (a.deploy_reserve_to_file other file ref_pos).2.uidMs = other.uidMs)
    ∧ (a.slide_file_towards_centre file).uidMs = a.uidMs
    ∧ (Battle.tidy b).uidMsPair = b.uidMsPair
    ∧ (Battle.fight T L dt b).uidMsPair = b.uidMsPair
    ∧ (Battle.move T L dt b).uidMsPair = b.uidMsPair
    ∧ ((Battle.do_turn T L dt b).uidMsPair = b.uidMsPair
      ∧ (Battle.do_turn T L dt b).KeysOk)
    ∧ (Battle.run_loop T L dt fuel b).uidMsPair = b.uidMsPair
    ∧ ((Battle.run_loop T L dt fuel b).army_1.uidList.Nodup ↔ b.army_1.uidList.Nodup)
    ∧ ((Battle.run_loop T L dt fuel b).army_2.uidList.Nodup ↔ b.army_2.uidList.Nodup) := by
  obtain ⟨r1, r2, -, -⟩ := remove_unit_spec a other u hnd
  obtain ⟨d1, d2, -, -⟩ := deploy_reserve_to_file_spec a other file ref_pos hfa
  obtain ⟨rl1, -⟩ := run_loop_inv T L dt fuel b hb
  have h1 : (Battle.run_loop T L dt fuel b).army_1.uidMs = b.army_1.uidMs :=
    congrArg Prod.fst rl1
  have h2 : (Battle.run_loop T L dt fuel b).army_2.uidMs = b.army_2.uidMs :=
    congrArg (fun q : Multiset ℕ × Multiset ℕ => q.2) rl1
  refine ⟨⟨r1, r2⟩, ⟨d1, d2⟩, (slide_file_towards_centre_spec a file).1,
    (tidy_inv b hb).1, (shape_congr (fight_shape T L dt b)).1,
    (shape_congr (move_shape T L dt b)).1, do_turn_inv T L dt b hb, rl1, ?_, ?_⟩
  · rw [← Multiset.coe_nodup, ← Multiset.coe_nodup]
    exact Eq.to_iff (congrArg Multiset.Nodup h1)
  · rw [← Multiset.coe_nodup, ← Multiset.coe_nodup]
    exact Eq.to_iff (congrArg Multiset.Nodup h2)

theorem claim_C5_witness :
    dArmy1.NodupKeys ∧ dArmy1.is_file_active 7 = false ∧ dB0.KeysOk
    ∧ (Battle.run_loop unusedTranscend flatLandscape dtTiny 2 dB0).uidMsPair
        = dB0.uidMsPair :=
  ⟨by unfold Army.NodupKeys; decide!, by decide!,
    by unfold Battle.KeysOk Army.NodupKeys; decide!,
    (claim_C5_roster_partition unusedTranscend flatLandscape dtTiny dArmy1 dArmy2 cU1
      7 0 dB0 2 (by unfold Army.NodupKeys; decide!) (by decide!)
      (by unfold Battle.KeysOk Army.NodupKeys; decide!)).2.2.2.2.2.2.2.1⟩

/-- C9: over the reals, `Army.reserve_power` is the logarithmic soft-cap
formula of the total base reserve power. -/
theorem claim_C9_reserve_power (a : Army ℝ) (x y d : ℝ)
    (hx : 0 ≤ x) (hxy : x < y) (hd : 0 < d) :
    a.reserve_power realTranscend
        = reserve_power_fn ((a.reserves.map Unit.power).sum)
    ∧ (a.reserves = [] → a.reserve_power realTranscend = 0)
    ∧ reserve_power_fn x < reserve_power_fn y
    ∧ reserve_power_fn (y + d) - reserve_power_fn y
        < reserve_power_fn (x + d) - reserve_power_fn x := by
  have hc : (0 : ℝ) < RESERVES_POWER * RESERVES_SOFT_CAP := by
    unfold RESERVES_POWER RESERVES_SOFT_CAP; norm_num
  have hA : (0 : ℝ) < 1 + x / RESERVES_SOFT_CAP := by
    unfold RESERVES_SOFT_CAP; positivity
  have hB : (0 : ℝ) < 1 + y / RESERVES_SOFT_CAP := by
    unfold RESERVES_SOFT_CAP at hA ⊢; nlinarith
  have hAB : 1 + x / RESERVES_SOFT_CAP < 1 + y / RESERVES_SOFT_CAP := by
    unfold RESERVES_SOFT_CAP; nlinarith
  refine ⟨rfl, ?_, ?_, ?_⟩
  · intro hres
    unfold Army.reserve_power
    rw [hres]
    simp [realTranscend]
  · unfold reserve_power_fn
    have := Real.log_lt_log hA hAB
    exact mul_lt_mul_of_pos_left this hc
  · unfold reserve_power_fn
    have hA' : (0 : ℝ) < 1 + (x + d) / RESERVES_SOFT_CAP := by
      unfold RESERVES_SOFT_CAP at hA ⊢; nlinarith
    have hB' : (0 : ℝ) < 1 + (y + d) / RESERVES_SOFT_CAP := by
      unfold RESERVES_SOFT_CAP at hB ⊢; nlinarith
    have key : (1 + (y + d) / RESERVES_SOFT_CAP) / (1 + y / RESERVES_SOFT_CAP)
        < (1 + (x + d) / RESERVES_SOFT_CAP) / (1 + x / RESERVES_SOFT_CAP) := by
      rw [div_lt_div_iff hB hA]
      unfold RESERVES_SOFT_CAP at hA hB hAB hA' hB' ⊢
      nlinarith
    have hlog := Real.log_lt_log (by positivity) key
    rw [Real.log_div (ne_of_gt hB') (ne_of_gt hB),
      Real.log_div (ne_of_gt hA') (ne_of_gt hA)] at hlog
    nlinarith [mul_lt_mul_of_pos_left hlog hc]

/-- C10: over the reals, the two fight balances of a pair are exact
reciprocals: `balance(A,B) * balance(B,A) = 1`, so the morale multiplier
`1/balance(A,B)` applied to A equals `balance(B,A)`. -/
theorem claim_C10_balance_reciprocal (L : Landscape ℝ) (b : Battle ℝ)
    (A B : Unit ℝ) :
    Battle.compute_fight_balance realTranscend L b A B
        * Battle.compute_fight_balance realTranscend L b B A = 1
    ∧ 1 / Battle.compute_fight_balance realTranscend L b A B
        = Battle.compute_fight_balance realTranscend L b B A := by
  have key : Battle.compute_fight_balance realTranscend L b A B
      * Battle.compute_fight_balance realTranscend L b B A = 1 := by
    unfold Battle.compute_fight_balance
    show Real.rpow 2 _ * Real.rpow 2 _ = 1
    rw [show (Battle.get_unit_eff_power realTranscend L b B
          - Battle.get_unit_eff_power realTranscend L b A) / (2 * POWER_SCALE)
        = -((Battle.get_unit_eff_power realTranscend L b A
          - Battle.get_unit_eff_power realTranscend L b B) / (2 * POWER_SCALE)) by ring]
    generalize (Battle.get_unit_eff_power realTranscend L b A
      - Battle.get_unit_eff_power realTranscend L b B) / (2 * POWER_SCALE) = e
    show (2 : ℝ) ^ e * (2 : ℝ) ^ (-e) = 1
    rw [← Real.rpow_add two_pos, add_neg_cancel, Real.rpow_zero]
  refine ⟨key, ?_⟩
  have key2 : Battle.compute_fight_balance realTranscend L b B A
      * Battle.compute_fight_balance realTranscend L b A B = 1 := by
    rw [mul_comm]; exact key
  exact (eq_one_div_of_mul_eq_one_left key2).symm

theorem claim_C9_witness :
    ((0 : ℝ) ≤ 0 ∧ (0 : ℝ) < 1 ∧ (0 : ℝ) < 1)
    ∧ (rArmy.reserve_power realTranscend
          = reserve_power_fn ((rArmy.reserves.map Unit.power).sum)
      ∧ (rArmy.reserves = [] → rArmy.reserve_power realTranscend = 0)
      ∧ reserve_power_fn 0 < reserve_power_fn 1
      ∧ reserve_power_fn (1 + 1) - reserve_power_fn 1
          < reserve_power_fn (0 + 1) - reserve_power_fn 0) :=
  ⟨⟨le_refl 0, one_pos, one_pos⟩,
    claim_C9_reserve_power rArmy 0 1 1 (le_refl 0) one_pos one_pos⟩

end SB
